import Mathlib

/-!
A verification development for the browser-automation pipeline core.

The TypeScript source is shallowly embedded: pure control flow is translated
into total Lean functions, the in-memory JavaScript `Map` registries become
association lists over `String` keys, wall-clock instants become `Nat`
parameters, and every interaction with the outside world (a step body
resolving or rejecting, a CDP endpoint answering, a download finishing) is an
explicit oracle argument.  Loops whose termination depends on the environment
take an explicit fuel argument and return `none`/a `diverge` marker when the
fuel runs out; theorems show concrete fuel bounds suffice.
-/

namespace Spec2Proof

/-! ## Association-list registries (model of the JavaScript `Map`) -/

/-- `Map.get`: first binding for a key. -/
def alookup {α : Type} : List (String × α) → String → Option α
  | [], _ => none
  | (k, v) :: rest, i => if k = i then some v else alookup rest i

/-- `Map.set`: replace the binding if the key is present, else append. -/
def aset {α : Type} : List (String × α) → String → α → List (String × α)
  | [], k, v => [(k, v)]
  | (k', v') :: rest, k, v =>
    if k' = k then (k, v) :: rest else (k', v') :: aset rest k v

/-- `Map.delete`: drop the binding for a key. -/
def aremove {α : Type} : List (String × α) → String → List (String × α)
  | [], _ => []
  | (k', v') :: rest, k =>
    if k' = k then aremove rest k else (k', v') :: aremove rest k

/-! ## Task registry (`taskRegistry.ts`)

`AbortController` instances are modelled by numeric identifiers drawn from a
fresh supply `nextCtrl`; the set of aborted controllers is carried in the
state, and an `AbortSignal` is the controller's identifier. -/

inductive TaskType where
  | prompts | download | pipeline
deriving DecidableEq, Repr

structure ActiveTask where
  type : TaskType
  ctrlId : Nat
  startTime : Nat
deriving DecidableEq, Repr

structure RegistryState where
  tasks : List (String × ActiveTask)
  nextCtrl : Nat
  aborted : List Nat
deriving Repr

/-- `stopTask(sessionId)`: abort the entry's controller and delete it. -/
def stopTask (sessionId : String) (st : RegistryState) : RegistryState :=
  match alookup st.tasks sessionId with
  | none => st
  | some task =>
    { st with
      aborted := task.ctrlId :: st.aborted
      tasks := aremove st.tasks sessionId }

/-- `startTask(sessionId, type)`: cancel any previous task for the session,
then register a fresh controller and return its signal. -/
def startTask (sessionId : String) (type : TaskType) (now : Nat)
    (st : RegistryState) : Nat × RegistryState :=
  let st1 :=
    if (alookup st.tasks sessionId).isSome then stopTask sessionId st else st
  let c := st1.nextCtrl
  (c,
    { tasks := aset st1.tasks sessionId ⟨type, c, now⟩
      nextCtrl := c + 1
      aborted := st1.aborted })

/-- `cancelAllTasks()`: abort everything and clear the registry. -/
def cancelAllTasks (st : RegistryState) : RegistryState :=
  { st with
    aborted := st.tasks.map (fun p => p.2.ctrlId) ++ st.aborted
    tasks := [] }

/-- Well-formedness: every controller ever handed out is below the fresh
supply, so `nextCtrl` is genuinely fresh. -/
structure RegWF (st : RegistryState) : Prop where
  tasks_lt : ∀ p ∈ st.tasks, p.2.ctrlId < st.nextCtrl
  aborted_lt : ∀ a ∈ st.aborted, a < st.nextCtrl

/-- Number of registry entries recorded for one key. -/
def countKey {α : Type} (m : List (String × α)) (k : String) : Nat :=
  (m.filter (fun p => decide (p.1 = k))).length

/-! ## Watchdog (`watchdog.ts`)

A `WatchdogEntry` carries the last heartbeat instant and the timeout budget.
The recurring `setInterval` handle and the `onTimeout` callback live outside
the model: one run of the interval body is `watchersCheckTick`, whose boolean
result records whether `onTimeout` was invoked during that run.  Instants are
`Nat` milliseconds; `now - last > budget` uses truncated subtraction, which
agrees with the source's integer arithmetic whenever `now ≥ last`. -/

structure WatchdogEntry where
  lastHeartbeat : Nat
  timeoutMs : Nat
deriving DecidableEq, Repr

/-- One run of the interval body installed by `startWatchdog`: if the entry
is still armed and the heartbeat is older than the budget, fire `onTimeout`
and snooze the entry by resetting its heartbeat to the current time. -/
def watchersCheckTick (runId : String) (now : Nat)
    (w : List (String × WatchdogEntry)) :
    List (String × WatchdogEntry) × Bool :=
  match alookup w runId with
  | none => (w, false)
  | some e =>
    if now - e.lastHeartbeat > e.timeoutMs then
      (aset w runId { e with lastHeartbeat := now }, true)
    else (w, false)

/-- `heartbeat(runId)`: refresh the entry's heartbeat if it is armed. -/
def heartbeat (runId : String) (now : Nat)
    (w : List (String × WatchdogEntry)) : List (String × WatchdogEntry) :=
  match alookup w runId with
  | none => w
  | some e => aset w runId { e with lastHeartbeat := now }

/-- `stopWatchdog(runId)`: clear the interval and drop the entry. -/
def stopWatchdog (runId : String)
    (w : List (String × WatchdogEntry)) : List (String × WatchdogEntry) :=
  match alookup w runId with
  | none => w
  | some _ => aremove w runId

/-- `startWatchdog(runId, timeoutMs, onTimeout)`: replace any prior entry
with a freshly-armed one whose heartbeat is the current time. -/
def startWatchdog (runId : String) (timeoutMs : Nat) (now : Nat)
    (w : List (String × WatchdogEntry)) : List (String × WatchdogEntry) :=
  aset (stopWatchdog runId w) runId ⟨now, timeoutMs⟩

/-! ## Chrome session manager (`chromeLauncher.ts` / chrome `manager.ts`)

`activeSessions` is the keyed registry `sessionId → {port, wsEndpoint}`.
Network behaviour is given by oracles: `portWs port` is what `checkCdpPort`
observes on the port (`some ws`: a CDP endpoint already answers), `spawnWs
port` is the endpoint a freshly spawned Chrome eventually exposes (`none`:
it crashes or times out), and `probeOk ws` says whether `puppeteer.connect`
to `ws` succeeds.  Filesystem profile seeding (steps 2-3 of the source) has
no observable effect on the registry, the result or the spawn count and is
outside the model.  Every result carries the number of processes spawned
during the call.  The source signals the already-running case by throwing a
message `"ALREADY_RUNNING:<ws>"`; its only consumer is the manager's catch
block, so it is modelled by a structured error. -/

structure SessionRec where
  port : Nat
  wsEndpoint : String
deriving DecidableEq, Repr

inductive LaunchError where
  | alreadyRunning (ws : String)
  | failed (msg : String)
deriving DecidableEq, Repr

/-- `launchChromeWithCdp`: check the port for a zombie Chrome first and
throw `alreadyRunning` without spawning if it answers; otherwise spawn one
process and poll until its endpoint appears or the wait times out. -/
def launchChromeWithCdp (portWs spawnWs : Nat → Option String) (port : Nat) :
    Except LaunchError String × Nat :=
  match portWs port with
  | some ws => (.error (.alreadyRunning ws), 0)
  | none =>
    match spawnWs port with
    | some ws => (.ok ws, 1)
    | none => (.error (.failed "Chrome timed out launching"), 1)

/-- Record the endpoint in `activeSessions`, then connect Puppeteer to it. -/
def connectAndRecord (probeOk : String → Bool)
    (sessions : List (String × SessionRec)) (sessionId : String)
    (port : Nat) (ws : String) (n : Nat) :
    Except String String × List (String × SessionRec) × Nat :=
  let sessions' := aset sessions sessionId ⟨port, ws⟩
  if probeOk ws then (.ok ws, sessions', n)
  else (.error "Failed to connect to Chrome endpoint", sessions', n)

/-- Steps 2-5 of `getOrLaunchChromeForProfile`: launch through the native
launcher, attaching instead of failing when the port already answers. -/
def launchPhase (probeOk : String → Bool) (portWs spawnWs : Nat → Option String)
    (sessions : List (String × SessionRec)) (port : Nat) (sessionId : String) :
    Except String String × List (String × SessionRec) × Nat :=
  match launchChromeWithCdp portWs spawnWs port with
  | (.ok ws, n) => connectAndRecord probeOk sessions sessionId port ws n
  | (.error (.alreadyRunning ws), n) =>
    connectAndRecord probeOk sessions sessionId port ws n
  | (.error (.failed m), n) => (.error m, sessions, n)

/-- `getOrLaunchChromeForProfile`: reuse the recorded endpoint when a
reconnect probe succeeds; otherwise discard the stale record and launch. -/
def getOrLaunchChromeForProfile (probeOk : String → Bool)
    (portWs spawnWs : Nat → Option String)
    (sessions : List (String × SessionRec)) (port : Nat) (sessionId : String) :
    Except String String × List (String × SessionRec) × Nat :=
  if sessionId = "" then
    (.error "sessionId is required for Chrome management", sessions, 0)
  else
    match alookup sessions sessionId with
    | some a =>
      if probeOk a.wsEndpoint then (.ok a.wsEndpoint, sessions, 0)
      else launchPhase probeOk portWs spawnWs (aremove sessions sessionId)
        port sessionId
    | none => launchPhase probeOk portWs spawnWs sessions port sessionId

/-! ## Download acquisition loop (`downloadFlow.ts`)

The page/filesystem machinery of one loop iteration (wait-ready, click,
wait-start, wait-saved, post-delay, swipe) is summarised by the oracle
`iter`: iteration `i` either saves a file at a path (`ok`, covering a
successful swipe where one is taken), fails somewhere but recovers with the
recovery swipe (`retry`), or fails with the recovery swipe failing too
(`abort`, which exits the loop).  `cancel i` is `isCancelled()` as observed
at the top of iteration `i`.  The `while` loop has no intrinsic bound, so
it takes fuel; `DLRun.diverge` marks fuel exhaustion. -/

inductive DownloadState where
  | Idle | OpenCard | WaitCardReady | StartDownload | WaitDownloadStart
  | WaitFileSaved | PostDownloadDelay | SwipeNext | Done
deriving DecidableEq, Repr

structure DownloadLoopResult where
  completed : Nat
  savedFiles : List String
  lastState : DownloadState
deriving DecidableEq, Repr

inductive IterOutcome where
  | ok (path : String)
  | retry
  | abort
deriving DecidableEq, Repr

inductive DLRun where
  | diverge
  | thrown (msg : String)
  | finished (res : DownloadLoopResult) (iters : Nat)
deriving DecidableEq, Repr

/-- The `while (savedFiles.length < videosToDownload)` loop.  Returns the
saved files, the last notified state and the number of iterations entered
(instrumentation used to state that the body never ran). -/
def dlLoop (target : Nat) (iter : Nat → IterOutcome) (cancel : Nat → Bool) :
    Nat → Nat → List String → DownloadState →
    Option (List String × DownloadState × Nat)
  | fuel, idx, saved, st =>
    if saved.length ≥ target then some (saved, st, idx)
    else if cancel idx then some (saved, st, idx)
    else
      match fuel with
      | 0 => none
      | fuel + 1 =>
        match iter idx with
        | .ok p =>
          let saved' := saved ++ [p]
          if saved'.length ≥ target then some (saved', .Done, idx + 1)
          else dlLoop target iter cancel fuel (idx + 1) saved' .SwipeNext
        | .retry => dlLoop target iter cancel fuel (idx + 1) saved .SwipeNext
        | .abort => some (saved, .SwipeNext, idx + 1)

/-- `runDownloadLoop`: open the card at the resume offset (its failure is
rethrown), clamp the remaining target to `maxDownloads - skipCount` (the
source's `Math.max(0, ...)` is Lean's truncated subtraction), drive the
loop, and re-assert `Done` whenever the target was met. -/
def runDownloadLoop (maxDownloads skipCount : Nat) (openOk : Bool)
    (iter : Nat → IterOutcome) (cancel : Nat → Bool) (fuel : Nat) : DLRun :=
  if !openOk then .thrown "Failed to open initial card"
  else
    let videosToDownload := maxDownloads - skipCount
    match dlLoop videosToDownload iter cancel fuel 0 [] .OpenCard with
    | none => .diverge
    | some (saved, st, iters) =>
      .finished
        ⟨saved.length, saved,
          if saved.length ≥ videosToDownload then .Done else st⟩
        iters

/-! ## Workflow scheduler (`workflowRunner.ts`)

`runWorkflow` drives a scheduling loop over a mutable pending set, a map of
running promises and a status map.  The embedding makes the environment
explicit: `outcomes id` says whether step `id`'s body resolves (`true`) or
rejects, `errMsg id` is the rejection message, `sched tick id` says whether
the running step `id` settles during scheduler tick `tick` (when no running
step is selected, all settle — `Promise.race` always eventually returns
because step bodies settle), and `cancel tick` is `shouldCancel()` at the
top of the tick.  Settling order inside one tick is taken in launch order;
the claims below only depend on per-identifier facts, never on inter-step
result order.  Durations are wall-clock measurements and stay outside the
model.  The `while` loop takes fuel and `2 * steps.length + 1` is proved
sufficient. -/

inductive WStatus where
  | pending | running | success | error | skipped | warning
deriving DecidableEq, Repr

structure WorkflowStep where
  id : String
  label : String
  enabled : Bool
  dependsOn : List String
deriving DecidableEq, Repr

structure WorkflowRunResult where
  stepId : String
  label : String
  status : WStatus
  error : Option String
deriving DecidableEq, Repr

def deadlockMsg : String := "Deadlock: dependencies never met"

/-- `statusById.get(depId) === 'error' || === 'skipped'` (an unknown id is
`undefined`, hence neither). -/
def depFailed (m : List (String × WStatus)) (d : String) : Bool :=
  match alookup m d with
  | some .error => true
  | some .skipped => true
  | _ => false

/-- `statusById.get(depId) === 'success'`. -/
def depSuccess (m : List (String × WStatus)) (d : String) : Bool :=
  match alookup m d with
  | some .success => true
  | _ => false

/-- The readiness scan over the pending set, in order, threading the status
map exactly as the source mutates `statusById` mid-scan: a step whose
dependency failed or was skipped is resolved `skipped` immediately (visible
to later steps of the same scan); a step whose dependencies all succeeded
becomes ready; everything else stays pending.  Returns (still pending,
ready, updated status map, skip results pushed). -/
def scanPending :
    List WorkflowStep → List (String × WStatus) →
    List WorkflowStep × List WorkflowStep × List (String × WStatus) ×
      List WorkflowRunResult
  | [], m => ([], [], m, [])
  | s :: rest, m =>
    if s.dependsOn.any (fun d => depFailed m d) then
      let t := scanPending rest (aset m s.id .skipped)
      (t.1, t.2.1, t.2.2.1,
        ⟨s.id, s.label, .skipped, some "Dependency failed"⟩ :: t.2.2.2)
    else if s.dependsOn.all (fun d => depSuccess m d) then
      let t := scanPending rest m
      (t.1, s :: t.2.1, t.2.2.1, t.2.2.2)
    else
      let t := scanPending rest m
      (s :: t.1, t.2.1, t.2.2.1, t.2.2.2)

/-- Terminal result of a settling step body. -/
def completeResult (outcomes : String → Bool) (errMsg : String → String)
    (s : WorkflowStep) : WorkflowRunResult :=
  if outcomes s.id then ⟨s.id, s.label, .success, none⟩
  else ⟨s.id, s.label, .error, some (errMsg s.id)⟩

/-- Terminal status of a settling step body. -/
def completeStatus (outcomes : String → Bool) (s : WorkflowStep) : WStatus :=
  if outcomes s.id then .success else .error

structure SchedState where
  tick : Nat
  pending : List WorkflowStep
  running : List WorkflowStep
  status : List (String × WStatus)
  results : List WorkflowRunResult
deriving Repr

/-- One iteration of the `while (pendingSteps.size > 0 ||
runningPromises.size > 0)` loop: either the run finishes with a result list
(`inl`) — loop exit, cancellation flush, deadlock flush, or everything
resolved by the scan — or the loop continues with the next state (`inr`). -/
def wfStep (outcomes : String → Bool) (errMsg : String → String)
    (sched : Nat → String → Bool) (cancel : Nat → Bool) (st : SchedState) :
    List WorkflowRunResult ⊕ SchedState :=
  if st.pending.isEmpty && st.running.isEmpty then .inl st.results
  else if cancel st.tick then
    .inl (st.results
      ++ st.pending.map (fun s => ⟨s.id, s.label, .skipped, some "Cancelled"⟩)
      ++ st.running.map (completeResult outcomes errMsg))
  else
    let t := scanPending st.pending st.status
    let pending1 := t.1
    let ready := t.2.1
    let status2 := ready.foldl (fun m s => aset m s.id .running) t.2.2.1
    let running1 := st.running ++ ready
    let results1 := st.results ++ t.2.2.2
    if running1.isEmpty && !pending1.isEmpty then
      .inl (results1 ++ pending1.map
        (fun s => ⟨s.id, s.label, .error, some deadlockMsg⟩))
    else if running1.isEmpty && pending1.isEmpty then
      .inl results1
    else
      let sel := running1.filter (fun s => sched st.tick s.id)
      let completed := if sel.isEmpty then running1 else sel
      let status3 := completed.foldl
        (fun m s => aset m s.id (completeStatus outcomes s)) status2
      let running2 := running1.filter
        (fun s => !(completed.any (fun c => c.id == s.id)))
      .inr ⟨st.tick + 1, pending1, running2, status3,
        results1 ++ completed.map (completeResult outcomes errMsg)⟩

/-- The scheduler loop, with fuel. -/
def wfLoop (outcomes : String → Bool) (errMsg : String → String)
    (sched : Nat → String → Bool) (cancel : Nat → Bool) :
    Nat → SchedState → Option (List WorkflowRunResult)
  | 0, _ => none
  | fuel + 1, st =>
    match wfStep outcomes errMsg sched cancel st with
    | .inl res => some res
    | .inr st2 => wfLoop outcomes errMsg sched cancel fuel st2

/-- The up-front pass over `steps`: disabled steps are resolved `skipped`
before the loop begins, enabled steps start `pending`. -/
def initStatus (steps : List WorkflowStep) : List (String × WStatus) :=
  steps.foldl
    (fun m s => aset m s.id (if s.enabled then .pending else .skipped)) []

def initState (steps : List WorkflowStep) : SchedState :=
  ⟨0, steps.filter (fun s => s.enabled), [], initStatus steps,
    (steps.filter (fun s => !s.enabled)).map
      (fun s => ⟨s.id, s.label, .skipped, none⟩)⟩

/-- `runWorkflow` with the loop's fuel exposed as an `Option`: `none` would
mean the scheduling loop failed to return. -/
def runWorkflowO (steps : List WorkflowStep) (outcomes : String → Bool)
    (errMsg : String → String) (sched : Nat → String → Bool)
    (cancel : Nat → Bool) : Option (List WorkflowRunResult) :=
  wfLoop outcomes errMsg sched cancel (2 * steps.length + 1) (initState steps)

/-- `runWorkflow(steps, options)`. -/
def runWorkflow (steps : List WorkflowStep) (outcomes : String → Bool)
    (errMsg : String → String) (sched : Nat → String → Bool)
    (cancel : Nat → Bool) : List WorkflowRunResult :=
  (runWorkflowO steps outcomes errMsg sched cancel).getD []

/-! ### The scheduler loop invariant -/

/-- Facts preserved by every scheduler tick: pending and running sets draw
from the input steps; each input identifier is accounted for exactly once
across results, pending and running; the status map only names input
identifiers; a `success` map entry is backed by a `success` result; every
running step was launched with all its dependencies successfully resolved;
a `success` result's dependencies all have `success` results; an `error`
result is either a deadlock flush or comes from a launched (dependencies
successful) body; recorded results carry only terminal statuses. -/
structure WfInv (steps : List WorkflowStep) (st : SchedState) : Prop where
  sub_p : ∀ s ∈ st.pending, s ∈ steps
  sub_r : ∀ s ∈ st.running, s ∈ steps
  perm : ((st.results.map (·.stepId)) ++ (st.pending.map (·.id))
      ++ (st.running.map (·.id))).Perm (steps.map (·.id))
  dom : ∀ i, (alookup st.status i).isSome → i ∈ steps.map (·.id)
  succ_res : ∀ i, alookup st.status i = some .success →
    ∃ r ∈ st.results, r.stepId = i ∧ r.status = .success
  run_deps : ∀ c ∈ st.running, ∀ d ∈ c.dependsOn,
    ∃ r ∈ st.results, r.stepId = d ∧ r.status = .success
  res_succ_deps : ∀ r ∈ st.results, r.status = .success →
    ∀ X ∈ steps, X.id = r.stepId → ∀ d ∈ X.dependsOn,
      ∃ rd ∈ st.results, rd.stepId = d ∧ rd.status = .success
  res_err : ∀ r ∈ st.results, r.status = .error →
    r.error = some deadlockMsg ∨
    (∀ X ∈ steps, X.id = r.stepId → ∀ d ∈ X.dependsOn,
      ∃ rd ∈ st.results, rd.stepId = d ∧ rd.status = .success)
  res_status : ∀ r ∈ st.results, r.status = .success ∨ r.status = .error ∨
    r.status = .skipped

/-- What holds of the returned result list. -/
structure WfFinal (steps : List WorkflowStep)
    (res : List WorkflowRunResult) : Prop where
  perm : (res.map (·.stepId)).Perm (steps.map (·.id))
  res_status : ∀ r ∈ res, r.status = .success ∨ r.status = .error ∨
    r.status = .skipped
  succ_deps : ∀ r ∈ res, r.status = .success →
    ∀ X ∈ steps, X.id = r.stepId → ∀ d ∈ X.dependsOn,
      ∃ rd ∈ res, rd.stepId = d ∧ rd.status = .success
  err_src : ∀ r ∈ res, r.status = .error →
    r.error = some deadlockMsg ∨
    (∀ X ∈ steps, X.id = r.stepId → ∀ d ∈ X.dependsOn,
      ∃ rd ∈ res, rd.stepId = d ∧ rd.status = .success)

/-- `B` depends on `A` directly or through a chain of `dependsOn` edges
among the input steps. -/
inductive DepChain (steps : List WorkflowStep) :
    WorkflowStep → WorkflowStep → Prop where
  | base (B A : WorkflowStep) : B ∈ steps → A ∈ steps →
      A.id ∈ B.dependsOn → DepChain steps B A
  | step (B C A : WorkflowStep) : B ∈ steps → C ∈ steps →
      C.id ∈ B.dependsOn → DepChain steps C A → DepChain steps B A

theorem alookup_aset {α : Type} (m : List (String × α)) (k i : String) (v : α) :
    alookup (aset m k v) i = if k = i then some v else alookup m i := by
  induction m with
  | nil => simp [aset, alookup]
  | cons p rest ih =>
    obtain ⟨k', v'⟩ := p
    by_cases hk : k' = k
    · subst hk
      by_cases h : k' = i <;> simp [aset, alookup, h]
    · by_cases h : k' = i
      · subst h
        have hki : ¬ k = k' := fun hc => hk hc.symm
        simp [aset, alookup, hk, hki]
      · simp [aset, alookup, hk, h, ih]

theorem alookup_aremove {α : Type} (m : List (String × α)) (k i : String) :
    alookup (aremove m k) i = if k = i then none else alookup m i := by
  induction m with
  | nil => simp [aremove, alookup]
  | cons p rest ih =>
    obtain ⟨k', v'⟩ := p
    by_cases hk : k' = k
    · subst hk
      by_cases h : k' = i
      · subst h; simpa [aremove, alookup] using ih
      · simpa [aremove, alookup, h] using ih
    · by_cases h : k' = i
      · subst h
        have hki : ¬ k = k' := fun hc => hk hc.symm
        simp [aremove, alookup, hk, hki]
      · simp [aremove, alookup, hk, h, ih]

/-- A successful lookup exhibits a member of the list. -/
theorem alookup_mem {α : Type} (m : List (String × α)) (i : String) (v : α)
    (h : alookup m i = some v) : (i, v) ∈ m := by
  induction m with
  | nil => simp [alookup] at h
  | cons p rest ih =>
    obtain ⟨k', v'⟩ := p
    by_cases hk : k' = i
    · subst hk
      have hv : v' = v := by simpa [alookup] using h
      subst hv
      exact List.mem_cons_self _ _
    · simp only [alookup, if_neg hk] at h
      exact List.mem_cons_of_mem _ (ih h)

theorem aremove_subset {α : Type} (m : List (String × α)) (k : String) :
    ∀ p ∈ aremove m k, p ∈ m := by
  induction m with
  | nil => simp [aremove]
  | cons q rest ih =>
    obtain ⟨q1, q2⟩ := q
    intro p hp
    by_cases hk : q1 = k
    · simp only [aremove, if_pos hk] at hp
      exact List.mem_cons_of_mem _ (ih p hp)
    · simp only [aremove, if_neg hk] at hp
      rw [List.mem_cons] at hp
      rcases hp with hp | hp
      · simp [hp]
      · exact List.mem_cons_of_mem _ (ih p hp)

theorem aset_mem {α : Type} (m : List (String × α)) (k : String) (v : α) :
    ∀ p ∈ aset m k v, p ∈ m ∨ p = (k, v) := by
  induction m with
  | nil => simp [aset]
  | cons q rest ih =>
    obtain ⟨q1, q2⟩ := q
    intro p hp
    by_cases hk : q1 = k
    · simp only [aset, if_pos hk] at hp
      rw [List.mem_cons] at hp
      rcases hp with hp | hp
      · exact Or.inr hp
      · exact Or.inl (List.mem_cons_of_mem _ hp)
    · simp only [aset, if_neg hk] at hp
      rw [List.mem_cons] at hp
      rcases hp with hp | hp
      · exact Or.inl (by simp [hp])
      · rcases ih p hp with h | h
        · exact Or.inl (List.mem_cons_of_mem _ h)
        · exact Or.inr h

theorem regWF_stopTask (sessionId : String) (st : RegistryState)
    (h : RegWF st) : RegWF (stopTask sessionId st) := by
  unfold stopTask
  cases hl : alookup st.tasks sessionId with
  | none => exact h
  | some task =>
    constructor
    · intro p hp
      exact h.tasks_lt p (aremove_subset st.tasks sessionId p hp)
    · intro a ha
      rw [List.mem_cons] at ha
      rcases ha with ha | ha
      · have := h.tasks_lt (sessionId, task) (alookup_mem _ _ _ hl)
        simpa [ha] using this
      · exact h.aborted_lt a ha

theorem regWF_startTask (sessionId : String) (type : TaskType) (now : Nat)
    (st : RegistryState) (h : RegWF st) :
    RegWF (startTask sessionId type now st).2 := by
  have h1 : RegWF (if (alookup st.tasks sessionId).isSome then
      stopTask sessionId st else st) := by
    split
    · exact regWF_stopTask sessionId st h
    · exact h
  set st1 := (if (alookup st.tasks sessionId).isSome then
      stopTask sessionId st else st) with hst1
  show RegWF
    { tasks := aset st1.tasks sessionId ⟨type, st1.nextCtrl, now⟩
      nextCtrl := st1.nextCtrl + 1
      aborted := st1.aborted }
  constructor
  · intro p hp
    rcases aset_mem st1.tasks sessionId ⟨type, st1.nextCtrl, now⟩ p hp with hmem | heq
    · exact Nat.lt_succ_of_lt (h1.tasks_lt p hmem)
    · simp [heq]
  · intro a ha
    exact Nat.lt_succ_of_lt (h1.aborted_lt a ha)

theorem countKey_cons {α : Type} (a : String) (b : α)
    (m : List (String × α)) (k : String) :
    countKey ((a, b) :: m) k = (if a = k then 1 else 0) + countKey m k := by
  by_cases h : a = k <;> simp [countKey, List.filter_cons, h] <;> omega

theorem countKey_aremove_self {α : Type} (m : List (String × α)) (k : String) :
    countKey (aremove m k) k = 0 := by
  induction m with
  | nil => rfl
  | cons q rest ih =>
    obtain ⟨q1, q2⟩ := q
    by_cases h : q1 = k
    · simpa [aremove, h] using ih
    · simp [aremove, h, countKey_cons, ih]

theorem countKey_aremove_other {α : Type} (m : List (String × α)) (k i : String)
    (h : i ≠ k) : countKey (aremove m k) i = countKey m i := by
  induction m with
  | nil => rfl
  | cons q rest ih =>
    obtain ⟨q1, q2⟩ := q
    by_cases hq : q1 = k
    · have hqi : q1 ≠ i := by
        intro hc; exact h (hc ▸ hq ▸ rfl)
      rw [aremove]
      rw [if_pos hq, ih, countKey_cons, if_neg hqi]
      omega
    · rw [aremove]
      rw [if_neg hq, countKey_cons, countKey_cons, ih]

theorem countKey_aset_self {α : Type} (m : List (String × α)) (k : String)
    (v : α) (h0 : countKey m k ≤ 1) : countKey (aset m k v) k = 1 := by
  induction m with
  | nil => simp [aset, countKey]
  | cons q rest ih =>
    obtain ⟨q1, q2⟩ := q
    by_cases hq : q1 = k
    · rw [countKey_cons, if_pos hq] at h0
      have hrest : countKey rest k = 0 := by omega
      rw [aset, if_pos hq, countKey_cons, if_pos rfl, hrest]
    · rw [countKey_cons, if_neg hq] at h0
      rw [aset, if_neg hq, countKey_cons, if_neg hq, ih (by omega)]

theorem countKey_aset_other {α : Type} (m : List (String × α)) (k i : String)
    (v : α) (h : i ≠ k) : countKey (aset m k v) i = countKey m i := by
  have hki : k ≠ i := fun hc => h hc.symm
  induction m with
  | nil => simp [aset, countKey, hki]
  | cons q rest ih =>
    obtain ⟨q1, q2⟩ := q
    by_cases hq : q1 = k
    · have hq1i : q1 ≠ i := by
        intro hc; exact h (hc ▸ hq ▸ rfl)
      rw [aset, if_pos hq, countKey_cons, countKey_cons, if_neg hki, if_neg hq1i]
    · rw [aset, if_neg hq, countKey_cons, countKey_cons, ih]

/-- Claim C5: the task registry keeps at most one active task per entity.
Starting a task for an entity that already has one first aborts the prior
task's signal and removes its entry, then installs exactly one new entry and
returns a fresh, not-yet-aborted signal; `stopTask` removes and aborts the
entity's entry; the at-most-one-entry invariant is preserved for every
entity. -/
theorem startTask_single_active_task
    (st : RegistryState) (entity : String) (kind : TaskType) (now : Nat)
    (hWF : RegWF st) (hKeys : ∀ sid, countKey st.tasks sid ≤ 1)
    (old : ActiveTask) (hprior : alookup st.tasks entity = some old) :
    old.ctrlId ∈ (startTask entity kind now st).2.aborted ∧
    alookup (startTask entity kind now st).2.tasks entity
      = some ⟨kind, (startTask entity kind now st).1, now⟩ ∧
    countKey (startTask entity kind now st).2.tasks entity = 1 ∧
    (startTask entity kind now st).1 ∉ (startTask entity kind now st).2.aborted ∧
    old.ctrlId ≠ (startTask entity kind now st).1 ∧
    (∀ sid, countKey (startTask entity kind now st).2.tasks sid ≤ 1) ∧
    alookup (stopTask entity (startTask entity kind now st).2).tasks entity = none ∧
    (startTask entity kind now st).1 ∈
      (stopTask entity (startTask entity kind now st).2).aborted := by
  have hOldLt : old.ctrlId < st.nextCtrl :=
    hWF.tasks_lt (entity, old) (alookup_mem _ _ _ hprior)
  have hSome : (alookup st.tasks entity).isSome := by rw [hprior]; rfl
  have hStop : stopTask entity st =
      { st with aborted := old.ctrlId :: st.aborted
                tasks := aremove st.tasks entity } := by
    rw [stopTask, hprior]
  have hRun : startTask entity kind now st =
      (st.nextCtrl,
        { tasks := aset (aremove st.tasks entity) entity ⟨kind, st.nextCtrl, now⟩
          nextCtrl := st.nextCtrl + 1
          aborted := old.ctrlId :: st.aborted }) := by
    rw [startTask, if_pos hSome, hStop]
  rw [hRun]
  dsimp only
  refine ⟨List.mem_cons_self _ _, ?_, ?_, ?_, ?_, ?_, ?_, ?_⟩
  · simp [alookup_aset]
  · exact countKey_aset_self _ _ _ (by rw [countKey_aremove_self]; omega)
  · intro hmem
    rw [List.mem_cons] at hmem
    rcases hmem with hmem | hmem
    · omega
    · exact absurd (hWF.aborted_lt _ hmem) (by omega)
  · exact Nat.ne_of_lt hOldLt
  · intro sid
    by_cases hsid : sid = entity
    · subst hsid
      exact le_of_eq (countKey_aset_self _ _ _ (by rw [countKey_aremove_self]; omega))
    · rw [countKey_aset_other _ _ _ _ hsid, countKey_aremove_other _ _ _ hsid]
      exact hKeys sid
  · rw [stopTask]
    simp only [alookup_aset, if_pos rfl]
    simp [alookup_aremove]
  · rw [stopTask]
    simp only [alookup_aset, if_pos rfl]
    exact List.mem_cons_self _ _

/-- Witness for C5 at a concrete registry holding one prior task. -/
theorem startTask_single_active_task_witness :
    (0 : Nat) ∈ (startTask "s1" TaskType.download 7
        ⟨[("s1", ⟨TaskType.prompts, 0, 2⟩)], 1, []⟩).2.aborted ∧
    alookup (startTask "s1" TaskType.download 7
        ⟨[("s1", ⟨TaskType.prompts, 0, 2⟩)], 1, []⟩).2.tasks "s1"
      = some ⟨TaskType.download,
          (startTask "s1" TaskType.download 7
            ⟨[("s1", ⟨TaskType.prompts, 0, 2⟩)], 1, []⟩).1, 7⟩ ∧
    countKey (startTask "s1" TaskType.download 7
        ⟨[("s1", ⟨TaskType.prompts, 0, 2⟩)], 1, []⟩).2.tasks "s1" = 1 ∧
    (startTask "s1" TaskType.download 7
        ⟨[("s1", ⟨TaskType.prompts, 0, 2⟩)], 1, []⟩).1 ∉
      (startTask "s1" TaskType.download 7
        ⟨[("s1", ⟨TaskType.prompts, 0, 2⟩)], 1, []⟩).2.aborted ∧
    (0 : Nat) ≠ (startTask "s1" TaskType.download 7
        ⟨[("s1", ⟨TaskType.prompts, 0, 2⟩)], 1, []⟩).1 ∧
    (∀ sid, countKey (startTask "s1" TaskType.download 7
        ⟨[("s1", ⟨TaskType.prompts, 0, 2⟩)], 1, []⟩).2.tasks sid ≤ 1) ∧
    alookup (stopTask "s1" (startTask "s1" TaskType.download 7
        ⟨[("s1", ⟨TaskType.prompts, 0, 2⟩)], 1, []⟩).2).tasks "s1" = none ∧
    (startTask "s1" TaskType.download 7
        ⟨[("s1", ⟨TaskType.prompts, 0, 2⟩)], 1, []⟩).1 ∈
      (stopTask "s1" (startTask "s1" TaskType.download 7
        ⟨[("s1", ⟨TaskType.prompts, 0, 2⟩)], 1, []⟩).2).aborted :=
  startTask_single_active_task
    ⟨[("s1", ⟨TaskType.prompts, 0, 2⟩)], 1, []⟩ "s1" TaskType.download 7
    ⟨by intro p hp
        rw [List.mem_singleton] at hp
        simp [hp],
      by intro a ha; simp at ha⟩
    (by intro sid
        by_cases h : "s1" = sid <;>
          simp [countKey, List.filter_cons, h])
    ⟨TaskType.prompts, 0, 2⟩ rfl

/-- Claim C6: when an armed watchdog entry has seen no heartbeat within its
budget, the check fires and immediately resets the heartbeat to the current
time while keeping the entry armed; hence no further check fires inside the
same timeout window, and a heartbeat recorded after the fire defers the next
fire by a full budget. -/
theorem watchdog_fires_once_per_window
    (w : List (String × WatchdogEntry)) (runId : String) (now : Nat)
    (e : WatchdogEntry) (harm : alookup w runId = some e)
    (hfire : now - e.lastHeartbeat > e.timeoutMs) :
    (watchersCheckTick runId now w).2 = true ∧
    alookup (watchersCheckTick runId now w).1 runId = some ⟨now, e.timeoutMs⟩ ∧
    (∀ t, t ≤ now + e.timeoutMs →
      (watchersCheckTick runId t (watchersCheckTick runId now w).1).2 = false) ∧
    (∀ h t, t ≤ h + e.timeoutMs →
      (watchersCheckTick runId t
        (heartbeat runId h (watchersCheckTick runId now w).1)).2 = false) := by
  have hrun : watchersCheckTick runId now w =
      (aset w runId { e with lastHeartbeat := now }, true) := by
    rw [watchersCheckTick, harm]
    dsimp only
    rw [if_pos hfire]
  have hlook : alookup (watchersCheckTick runId now w).1 runId
      = some ⟨now, e.timeoutMs⟩ := by
    rw [hrun]
    simp [alookup_aset]
  refine ⟨by rw [hrun], hlook, ?_, ?_⟩
  · intro t ht
    rw [watchersCheckTick, hlook]
    dsimp only
    rw [if_neg (by omega)]
  · intro h t ht
    have hbeat : heartbeat runId h (watchersCheckTick runId now w).1
        = aset (watchersCheckTick runId now w).1 runId ⟨h, e.timeoutMs⟩ := by
      rw [heartbeat, hlook]
    rw [watchersCheckTick, hbeat]
    rw [alookup_aset, if_pos rfl]
    dsimp only
    rw [if_neg (by omega)]

/-- Witness for C6: entry armed at time 0 with a 10ms budget, checked at
time 11. -/
theorem watchdog_fires_once_per_window_witness :
    (watchersCheckTick "r" 11 [("r", ⟨0, 10⟩)]).2 = true ∧
    alookup (watchersCheckTick "r" 11 [("r", ⟨0, 10⟩)]).1 "r" = some ⟨11, 10⟩ ∧
    (∀ t, t ≤ 11 + 10 →
      (watchersCheckTick "r" t (watchersCheckTick "r" 11 [("r", ⟨0, 10⟩)]).1).2 = false) ∧
    (∀ h t, t ≤ h + 10 →
      (watchersCheckTick "r" t
        (heartbeat "r" h (watchersCheckTick "r" 11 [("r", ⟨0, 10⟩)]).1)).2 = false) :=
  watchdog_fires_once_per_window [("r", ⟨0, 10⟩)] "r" 11 ⟨0, 10⟩ rfl (by decide)

/-- Claim C7 counterexample: a session whose recorded endpoint fails the
reconnect probe, on a port where another Chrome already answers: the call
attaches and spawns zero processes, not exactly one. -/
theorem chrome_relaunch_spawn_counterexample :
    (fun ws => ws == "ws-new") "ws-old" = false ∧
    alookup [("s", (⟨9222, "ws-old"⟩ : SessionRec))] "s"
      = some ⟨9222, "ws-old"⟩ ∧
    (getOrLaunchChromeForProfile (fun ws => ws == "ws-new")
      (fun _ => some "ws-new") (fun _ => some "ws-spawned")
      [("s", ⟨9222, "ws-old"⟩)] 9222 "s").2.2 = 0 := by
  refine ⟨rfl, rfl, rfl⟩

/-- Claim C7 (amended): while the recorded endpoint answers the reconnect
probe, the call returns that endpoint with no spawn and an unchanged
registry; once the probe fails, the stale record is discarded and the call
spawns exactly one process when the port is silent — when the port already
answers it attaches with zero spawns — and the registry afterwards holds
the newly discovered endpoint, if any. -/
theorem chrome_ensure_idempotent_until_stale (probeOk : String → Bool)
    (portWs spawnWs : Nat → Option String)
    (sessions : List (String × SessionRec)) (port : Nat) (sessionId : String)
    (a : SessionRec) (hid : sessionId ≠ "")
    (hl : alookup sessions sessionId = some a) :
    (probeOk a.wsEndpoint = true →
      getOrLaunchChromeForProfile probeOk portWs spawnWs sessions port sessionId
        = (.ok a.wsEndpoint, sessions, 0)) ∧
    (probeOk a.wsEndpoint = false →
      (getOrLaunchChromeForProfile probeOk portWs spawnWs sessions port
          sessionId).2.2 = (if portWs port = none then 1 else 0) ∧
      alookup (getOrLaunchChromeForProfile probeOk portWs spawnWs sessions port
          sessionId).2.1 sessionId =
        (match portWs port, spawnWs port with
          | some ws, _ => some ⟨port, ws⟩
          | none, some ws => some ⟨port, ws⟩
          | none, none => none)) := by
  constructor
  · intro hp
    rw [getOrLaunchChromeForProfile, if_neg hid, hl]
    dsimp only
    rw [if_pos hp]
  · intro hp
    rw [getOrLaunchChromeForProfile, if_neg hid, hl]
    dsimp only
    rw [if_neg (by simp [hp])]
    rw [launchPhase, launchChromeWithCdp]
    cases hport : portWs port with
    | some ws =>
      dsimp only [connectAndRecord]
      constructor
      · cases hpw : probeOk ws <;> simp [hpw]
      · cases hpw : probeOk ws <;> simp [hpw, alookup_aset]
    | none =>
      cases hspawn : spawnWs port with
      | some ws =>
        dsimp only [connectAndRecord]
        constructor
        · cases hpw : probeOk ws <;> simp [hpw]
        · cases hpw : probeOk ws <;> simp [hpw, alookup_aset]
      | none =>
        dsimp only
        refine ⟨by simp, ?_⟩
        rw [alookup_aremove, if_pos rfl]

/-- Witness for C7 at a live recorded endpoint and at a stale one. -/
theorem chrome_ensure_idempotent_until_stale_witness :
    ((fun ws => ws == "ws-live") "ws-live" = true →
      getOrLaunchChromeForProfile (fun ws => ws == "ws-live")
        (fun _ => none) (fun _ => some "ws-f")
        [("p1", ⟨9300, "ws-live"⟩)] 9300 "p1"
        = (.ok "ws-live", [("p1", ⟨9300, "ws-live"⟩)], 0)) ∧
    ((fun ws => ws == "ws-live") "ws-live" = false →
      (getOrLaunchChromeForProfile (fun ws => ws == "ws-live")
        (fun _ => none) (fun _ => some "ws-f")
        [("p1", ⟨9300, "ws-live"⟩)] 9300 "p1").2.2
        = (if (fun _ => (none : Option String)) 9300 = none then 1 else 0) ∧
      alookup (getOrLaunchChromeForProfile (fun ws => ws == "ws-live")
        (fun _ => none) (fun _ => some "ws-f")
        [("p1", ⟨9300, "ws-live"⟩)] 9300 "p1").2.1 "p1" =
        (match (fun _ => (none : Option String)) 9300,
            (fun _ => some "ws-f") 9300 with
          | some ws, _ => some ⟨9300, ws⟩
          | none, some ws => some ⟨9300, ws⟩
          | none, none => none)) :=
  chrome_ensure_idempotent_until_stale (fun ws => ws == "ws-live")
    (fun _ => none) (fun _ => some "ws-f")
    [("p1", ⟨9300, "ws-live"⟩)] 9300 "p1" ⟨9300, "ws-live"⟩
    (by decide) rfl

/-- Claim C8: with no live recorded endpoint, a launch request on a port
that already answers the CDP status endpoint attaches to the running Chrome
instead of failing: it returns the discovered endpoint, records it in the
registry under the session id, and spawns nothing. -/
theorem chrome_attach_when_port_already_answers (probeOk : String → Bool)
    (portWs spawnWs : Nat → Option String)
    (sessions : List (String × SessionRec)) (port : Nat) (sessionId : String)
    (ws : String) (hid : sessionId ≠ "")
    (hstale : alookup sessions sessionId = none ∨
      ∃ a, alookup sessions sessionId = some a ∧ probeOk a.wsEndpoint = false)
    (hport : portWs port = some ws) (hconn : probeOk ws = true) :
    (getOrLaunchChromeForProfile probeOk portWs spawnWs sessions port
        sessionId).1 = .ok ws ∧
    alookup (getOrLaunchChromeForProfile probeOk portWs spawnWs sessions port
        sessionId).2.1 sessionId = some ⟨port, ws⟩ ∧
    (getOrLaunchChromeForProfile probeOk portWs spawnWs sessions port
        sessionId).2.2 = 0 := by
  have hlaunch : ∀ sess, launchPhase probeOk portWs spawnWs sess port sessionId
      = (.ok ws, aset sess sessionId ⟨port, ws⟩, 0) := by
    intro sess
    rw [launchPhase, launchChromeWithCdp, hport]
    dsimp only [connectAndRecord]
    rw [if_pos hconn]
  rcases hstale with hnone | ⟨a, hsome, hdead⟩
  · rw [getOrLaunchChromeForProfile, if_neg hid, hnone]
    dsimp only
    rw [hlaunch]
    simp [alookup_aset]
  · rw [getOrLaunchChromeForProfile, if_neg hid, hsome]
    dsimp only
    rw [if_neg (by simp [hdead])]
    rw [hlaunch]
    simp [alookup_aset]

/-- Witness for C8: empty registry, port 9400 already answering. -/
theorem chrome_attach_when_port_already_answers_witness :
    (getOrLaunchChromeForProfile (fun _ => true)
        (fun _ => some "ws-running") (fun _ => none) [] 9400 "p2").1
      = .ok "ws-running" ∧
    alookup (getOrLaunchChromeForProfile (fun _ => true)
        (fun _ => some "ws-running") (fun _ => none) [] 9400 "p2").2.1 "p2"
      = some ⟨9400, "ws-running"⟩ ∧
    (getOrLaunchChromeForProfile (fun _ => true)
        (fun _ => some "ws-running") (fun _ => none) [] 9400 "p2").2.2 = 0 :=
  chrome_attach_when_port_already_answers (fun _ => true)
    (fun _ => some "ws-running") (fun _ => none) [] 9400 "p2" "ws-running"
    (by decide) (Or.inl rfl) rfl rfl

theorem range_map_shift (paths : Nat → String) (idx m : Nat) :
    (List.range (m + 1)).map (fun j => paths (idx + j))
      = paths idx :: (List.range m).map (fun j => paths (idx + 1 + j)) := by
  rw [List.range_succ_eq_map, List.map_cons, List.map_map]
  refine congrArg₂ _ (by simp) (List.map_congr_left ?_)
  intro j _
  simp [Function.comp]
  ring_nf

/-- When every iteration saves a file and cancellation never fires, the
loop saves exactly the remaining `target - saved.length` files, in
iteration order. -/
theorem dlLoop_all_ok (target : Nat) (paths : Nat → String)
    (cancel : Nat → Bool) (hcancel : ∀ i, cancel i = false) :
    ∀ fuel idx saved st, target - saved.length ≤ fuel →
    dlLoop target (fun i => IterOutcome.ok (paths i)) cancel fuel idx saved st
      = some (saved ++ (List.range (target - saved.length)).map
            (fun j => paths (idx + j)),
          (if target - saved.length = 0 then st else .Done),
          idx + (target - saved.length)) := by
  intro fuel
  induction fuel with
  | zero =>
    intro idx saved st hfuel
    have h0 : target - saved.length = 0 := Nat.le_zero.mp hfuel
    rw [dlLoop]
    rw [if_pos (by omega)]
    simp [h0]
  | succ fuel ih =>
    intro idx saved st hfuel
    by_cases hdone : saved.length ≥ target
    · have h0 : target - saved.length = 0 := by omega
      rw [dlLoop, if_pos hdone]
      simp [h0]
    · rw [dlLoop, if_neg hdone, hcancel idx]
      dsimp only
      by_cases hlast : (saved ++ [paths idx]).length ≥ target
      · rw [if_pos hlast]
        have h1 : target - saved.length = 1 := by
          rw [List.length_append] at hlast
          simp at hlast
          omega
        rw [h1, range_map_shift]
        simp [h1]
      · rw [if_neg hlast]
        rw [ih (idx + 1) (saved ++ [paths idx]) .SwipeNext
          (by rw [List.length_append]; simp; omega)]
        have hlen : (saved ++ [paths idx]).length = saved.length + 1 := by
          simp
        have hm : target - saved.length = (target - (saved.length + 1)) + 1 := by
          rw [List.length_append] at hlast
          simp at hlast
          omega
        rw [hlen]
        rw [hm, range_map_shift]
        have hne : ¬ (target - (saved.length + 1) + 1 = 0) := by omega
        rw [if_neg hne]
        by_cases hz : target - (saved.length + 1) = 0
        · exfalso
          rw [List.length_append] at hlast
          simp at hlast
          omega
        · rw [if_neg hz]
          simp
          omega

/-- Claim C9 counterexample: target 5, resume offset 2, no cancellation,
but the first iteration fails and its recovery swipe fails too — the run
returns 0 completed items, not 3. -/
theorem download_loop_target_counterexample :
    runDownloadLoop 5 2 true (fun _ => .abort) (fun _ => false) 100
      = .finished ⟨0, [], .SwipeNext⟩ 1 ∧ (0 : Nat) ≠ 5 - 2 := by
  exact ⟨rfl, by decide⟩

/-- Claim C9 (amended): with target `t`, resume offset `k ≤ t`, cancellation
never observed and every iteration's download succeeding, the loop acquires
exactly `t - k` new items and returns them, in order, as the saved files. -/
theorem download_loop_acquires_remaining_target (t k : Nat)
    (paths : Nat → String) (cancel : Nat → Bool) (fuel : Nat) (hk : k ≤ t)
    (hcancel : ∀ i, cancel i = false) (hfuel : t - k ≤ fuel) :
    runDownloadLoop t k true (fun i => IterOutcome.ok (paths i)) cancel fuel
      = .finished ⟨t - k, (List.range (t - k)).map paths, .Done⟩ (t - k) := by
  rw [runDownloadLoop]
  dsimp only
  rw [dlLoop_all_ok (t - k) paths cancel hcancel fuel 0 [] .OpenCard
    (by simpa using hfuel)]
  have hmap : (List.range (t - k)).map (fun j => paths (0 + j))
      = (List.range (t - k)).map paths := by
    refine List.map_congr_left ?_
    intro j _
    simp
  simp [hmap]

/-- Witness for C9 (amended) at `t = 5`, `k = 2`. -/
theorem download_loop_acquires_remaining_target_witness :
    runDownloadLoop 5 2 true
        (fun i => IterOutcome.ok ((List.replicate i "x").foldl (· ++ ·) "f"))
        (fun _ => false) 10
      = .finished ⟨5 - 2,
          (List.range (5 - 2)).map
            (fun i => (List.replicate i "x").foldl (· ++ ·) "f"),
          .Done⟩ (5 - 2) :=
  download_loop_acquires_remaining_target 5 2
    (fun i => (List.replicate i "x").foldl (· ++ ·) "f")
    (fun _ => false) 10 (by decide) (fun _ => rfl) (by decide)

/-- Claim C10: a resume offset at or above the target clamps the remaining
target to zero — the loop body never runs (zero iterations), nothing is
downloaded, and the call reports zero completed items and no saved files. -/
theorem download_loop_clamped_when_skip_exceeds_target
    (maxDownloads skipCount : Nat) (iter : Nat → IterOutcome)
    (cancel : Nat → Bool) (fuel : Nat) (h : skipCount ≥ maxDownloads) :
    runDownloadLoop maxDownloads skipCount true iter cancel fuel
      = .finished ⟨0, [], .Done⟩ 0 := by
  have hv : maxDownloads - skipCount = 0 := by omega
  rw [runDownloadLoop]
  dsimp only
  rw [hv, dlLoop.eq_def]
  simp

/-- Witness for C10 at `maxDownloads = 3`, `skipCount = 5`. -/
theorem download_loop_clamped_when_skip_exceeds_target_witness :
    runDownloadLoop 3 5 true (fun _ => IterOutcome.retry) (fun _ => false) 50
      = .finished ⟨0, [], .Done⟩ 0 :=
  download_loop_clamped_when_skip_exceeds_target 3 5
    (fun _ => IterOutcome.retry) (fun _ => false) 50 (by decide)

/-! ### Properties of the readiness scan -/

theorem perm_cons_middle1 {α : Type} (a : α) (A B : List α) :
    List.Perm (a :: (A ++ B)) (A ++ (a :: B)) :=
  List.perm_middle.symm

theorem perm_cons_append {α : Type} (a : α) (A B C : List α) :
    List.Perm (a :: (A ++ B ++ C)) (A ++ (a :: B) ++ C) := by
  have h : List.Perm (a :: (A ++ B)) (A ++ (a :: B)) := List.perm_middle.symm
  have h2 := List.Perm.append_right C h
  simpa using h2

theorem scanPending_perm (p : List WorkflowStep) (m : List (String × WStatus)) :
    (p.map (·.id)).Perm
      ((scanPending p m).1.map (·.id) ++ (scanPending p m).2.1.map (·.id)
        ++ (scanPending p m).2.2.2.map (·.stepId)) := by
  induction p generalizing m with
  | nil => simp [scanPending]
  | cons s rest ih =>
    rw [scanPending]
    by_cases h1 : s.dependsOn.any (fun d => depFailed m d)
    · rw [if_pos h1]
      dsimp only
      simp only [List.map_cons]
      exact ((ih _).cons s.id).trans (perm_cons_middle1 s.id _ _)
    · rw [if_neg h1]
      by_cases h2 : s.dependsOn.all (fun d => depSuccess m d)
      · rw [if_pos h2]
        dsimp only
        simp only [List.map_cons, List.cons_append]
        exact ((ih m).cons s.id).trans (perm_cons_append s.id _ _ _)
      · rw [if_neg h2]
        dsimp only
        simp only [List.map_cons, List.cons_append]
        exact (ih m).cons s.id

theorem scanPending_sub_pending (p : List WorkflowStep)
    (m : List (String × WStatus)) :
    ∀ x ∈ (scanPending p m).1, x ∈ p := by
  induction p generalizing m with
  | nil => simp [scanPending]
  | cons s rest ih =>
    intro x hx
    rw [scanPending] at hx
    by_cases h1 : s.dependsOn.any (fun d => depFailed m d)
    · rw [if_pos h1] at hx
      exact List.mem_cons_of_mem _ (ih _ x hx)
    · rw [if_neg h1] at hx
      by_cases h2 : s.dependsOn.all (fun d => depSuccess m d)
      · rw [if_pos h2] at hx
        exact List.mem_cons_of_mem _ (ih m x hx)
      · rw [if_neg h2] at hx
        dsimp only at hx
        rw [List.mem_cons] at hx
        rcases hx with hx | hx
        · simp [hx]
        · exact List.mem_cons_of_mem _ (ih m x hx)

theorem scanPending_sub_ready (p : List WorkflowStep)
    (m : List (String × WStatus)) :
    ∀ x ∈ (scanPending p m).2.1, x ∈ p := by
  induction p generalizing m with
  | nil => simp [scanPending]
  | cons s rest ih =>
    intro x hx
    rw [scanPending] at hx
    by_cases h1 : s.dependsOn.any (fun d => depFailed m d)
    · rw [if_pos h1] at hx
      exact List.mem_cons_of_mem _ (ih _ x hx)
    · rw [if_neg h1] at hx
      by_cases h2 : s.dependsOn.all (fun d => depSuccess m d)
      · rw [if_pos h2] at hx
        dsimp only at hx
        rw [List.mem_cons] at hx
        rcases hx with hx | hx
        · simp [hx]
        · exact List.mem_cons_of_mem _ (ih m x hx)
      · rw [if_neg h2] at hx
        exact List.mem_cons_of_mem _ (ih m x hx)

theorem scanPending_res_status (p : List WorkflowStep)
    (m : List (String × WStatus)) :
    ∀ r ∈ (scanPending p m).2.2.2,
      r.status = .skipped ∧ r.error = some "Dependency failed" := by
  induction p generalizing m with
  | nil => simp [scanPending]
  | cons s rest ih =>
    intro r hr
    rw [scanPending] at hr
    by_cases h1 : s.dependsOn.any (fun d => depFailed m d)
    · rw [if_pos h1] at hr
      dsimp only at hr
      rw [List.mem_cons] at hr
      rcases hr with hr | hr
      · simp [hr]
      · exact ih _ r hr
    · rw [if_neg h1] at hr
      by_cases h2 : s.dependsOn.all (fun d => depSuccess m d)
      · rw [if_pos h2] at hr
        exact ih m r hr
      · rw [if_neg h2] at hr
        exact ih m r hr

theorem scanPending_status_mono (p : List WorkflowStep)
    (m : List (String × WStatus)) :
    ∀ i, alookup (scanPending p m).2.2.1 i = alookup m i ∨
      alookup (scanPending p m).2.2.1 i = some .skipped := by
  induction p generalizing m with
  | nil => intro i; exact Or.inl rfl
  | cons s rest ih =>
    intro i
    rw [scanPending]
    by_cases h1 : s.dependsOn.any (fun d => depFailed m d)
    · rw [if_pos h1]
      dsimp only
      rcases ih (aset m s.id .skipped) i with h | h
      · rw [h, alookup_aset]
        by_cases hid : s.id = i
        · rw [if_pos hid]; exact Or.inr rfl
        · rw [if_neg hid]; exact Or.inl rfl
      · exact Or.inr h
    · rw [if_neg h1]
      by_cases h2 : s.dependsOn.all (fun d => depSuccess m d)
      · rw [if_pos h2]; exact ih m i
      · rw [if_neg h2]; exact ih m i

theorem scanPending_dom (p : List WorkflowStep)
    (m : List (String × WStatus)) :
    ∀ i, (alookup (scanPending p m).2.2.1 i).isSome →
      (alookup m i).isSome ∨ i ∈ p.map (·.id) := by
  induction p generalizing m with
  | nil => intro i h; exact Or.inl h
  | cons s rest ih =>
    intro i h
    rw [scanPending] at h
    by_cases h1 : s.dependsOn.any (fun d => depFailed m d)
    · rw [if_pos h1] at h
      dsimp only at h
      rcases ih (aset m s.id .skipped) i h with hs | hs
      · rw [alookup_aset] at hs
        by_cases hid : s.id = i
        · right; simp [← hid]
        · rw [if_neg hid] at hs
          exact Or.inl hs
      · right; simp [hs]
    · rw [if_neg h1] at h
      by_cases h2 : s.dependsOn.all (fun d => depSuccess m d)
      · rw [if_pos h2] at h
        rcases ih m i h with hs | hs
        · exact Or.inl hs
        · right; simp [hs]
      · rw [if_neg h2] at h
        rcases ih m i h with hs | hs
        · exact Or.inl hs
        · right; simp [hs]

theorem depSuccess_aset_skipped (m : List (String × WStatus)) (k d : String)
    (h : depSuccess (aset m k .skipped) d = true) : depSuccess m d = true := by
  rw [depSuccess] at h ⊢
  rw [alookup_aset] at h
  by_cases hkd : k = d
  · rw [if_pos hkd] at h
    simp at h
  · rwa [if_neg hkd] at h

theorem scanPending_ready_deps (p : List WorkflowStep)
    (m : List (String × WStatus)) :
    ∀ s ∈ (scanPending p m).2.1, ∀ d ∈ s.dependsOn,
      depSuccess m d = true := by
  induction p generalizing m with
  | nil => simp [scanPending]
  | cons s rest ih =>
    intro x hx d hd
    rw [scanPending] at hx
    by_cases h1 : s.dependsOn.any (fun d => depFailed m d)
    · rw [if_pos h1] at hx
      exact depSuccess_aset_skipped m s.id d (ih _ x hx d hd)
    · rw [if_neg h1] at hx
      by_cases h2 : s.dependsOn.all (fun d => depSuccess m d)
      · rw [if_pos h2] at hx
        dsimp only at hx
        rw [List.mem_cons] at hx
        rcases hx with hx | hx
        · subst hx
          exact List.all_eq_true.mp h2 d hd
        · exact ih m x hx d hd
      · rw [if_neg h2] at hx
        exact ih m x hx d hd

theorem map_stepId_cancelled (l : List WorkflowStep) :
    ((l.map (fun s =>
        (⟨s.id, s.label, .skipped, some "Cancelled"⟩ : WorkflowRunResult))).map
      (·.stepId)) = l.map (·.id) := by
  rw [List.map_map]
  rfl

theorem map_stepId_deadlock (l : List WorkflowStep) :
    ((l.map (fun s =>
        (⟨s.id, s.label, .error, some deadlockMsg⟩ : WorkflowRunResult))).map
      (·.stepId)) = l.map (·.id) := by
  rw [List.map_map]
  rfl

theorem completeResult_cases (outcomes : String → Bool)
    (errMsg : String → String) (s : WorkflowStep) :
    (outcomes s.id = true ∧ completeResult outcomes errMsg s
        = ⟨s.id, s.label, .success, none⟩) ∨
    (outcomes s.id = false ∧ completeResult outcomes errMsg s
        = ⟨s.id, s.label, .error, some (errMsg s.id)⟩) := by
  rw [completeResult]
  by_cases h : outcomes s.id
  · rw [if_pos h]; exact Or.inl ⟨h, rfl⟩
  · rw [if_neg h]
    exact Or.inr ⟨by simpa using h, rfl⟩

theorem completeResult_stepId (outcomes : String → Bool)
    (errMsg : String → String) (s : WorkflowStep) :
    (completeResult outcomes errMsg s).stepId = s.id := by
  rcases completeResult_cases outcomes errMsg s with ⟨_, h⟩ | ⟨_, h⟩ <;>
    simp [h]

theorem map_stepId_completeResult (outcomes : String → Bool)
    (errMsg : String → String) (l : List WorkflowStep) :
    ((l.map (completeResult outcomes errMsg)).map (·.stepId))
      = l.map (·.id) := by
  rw [List.map_map]
  refine List.map_congr_left ?_
  intro s _
  exact completeResult_stepId outcomes errMsg s

/-- The settled steps and the surviving running steps partition the running
set by identifier, whenever running identifiers are distinct; and at least
one step settles. -/
theorem completed_partition (running1 completed : List WorkflowStep)
    (pred : WorkflowStep → Bool)
    (hc : completed = if (running1.filter pred).isEmpty then running1
      else running1.filter pred)
    (hnd1 : (running1.map (·.id)).Nodup) :
    ((completed.map (·.id)) ++ ((running1.filter (fun s =>
        !(completed.any (fun c => c.id == s.id)))).map (·.id))).Perm
      (running1.map (·.id)) ∧
    (running1 ≠ [] → completed ≠ []) := by
  by_cases hsel : (running1.filter pred).isEmpty
  · rw [if_pos hsel] at hc
    rw [hc]
    constructor
    · have h2 : running1.filter (fun s =>
          !(running1.any (fun c => c.id == s.id))) = [] := by
        rw [List.filter_eq_nil_iff]
        intro s hs
        have hany : running1.any (fun c => c.id == s.id) = true := by
          rw [List.any_eq_true]
          exact ⟨s, hs, by simp⟩
        simp [hany]
      rw [h2]
      simp
    · exact fun h => h
  · rw [if_neg hsel] at hc
    rw [hc]
    have hinj := List.inj_on_of_nodup_map hnd1
    constructor
    · have hfc : running1.filter (fun s =>
          !((running1.filter pred).any (fun c => c.id == s.id)))
          = running1.filter (fun s => !(pred s)) := by
        refine List.filter_congr ?_
        intro s hs
        have : (running1.filter pred).any (fun c => c.id == s.id) = pred s := by
          by_cases hp : pred s
          · rw [hp, List.any_eq_true]
            exact ⟨s, List.mem_filter.mpr ⟨hs, hp⟩, by simp⟩
          · have hp2 : pred s = false := by simpa using hp
            rw [hp2, List.any_eq_false]
            intro c hcmem hcid
            have hcr := List.mem_filter.mp hcmem
            have hideq : c.id = s.id := by simpa using hcid
            have : c = s := hinj hcr.1 hs hideq
            rw [this] at hcr
            exact hp hcr.2
        rw [this]
      rw [hfc, ← List.map_append]
      exact (List.filter_append_perm pred running1).map (·.id)
    · intro _
      intro hnil
      exact hsel (by rw [hnil]; rfl)

/-- Where a status-map fold leaves each key: untouched, or set from one of
the folded steps. -/
theorem alookup_foldl_aset (f : WorkflowStep → WStatus)
    (l : List WorkflowStep) (m : List (String × WStatus)) (i : String) :
    alookup (l.foldl (fun acc s => aset acc s.id (f s)) m) i = alookup m i ∨
    ∃ c ∈ l, c.id = i ∧
      alookup (l.foldl (fun acc s => aset acc s.id (f s)) m) i
        = some (f c) := by
  induction l generalizing m with
  | nil => exact Or.inl rfl
  | cons c tl ih =>
    rw [List.foldl_cons]
    rcases ih (aset m c.id (f c)) with h | ⟨c2, hc2, hid, hval⟩
    · rw [h, alookup_aset]
      by_cases hceq : c.id = i
      · right
        refine ⟨c, by simp, hceq, ?_⟩
        rw [if_pos hceq]
      · rw [if_neg hceq]
        exact Or.inl rfl
    · right
      exact ⟨c2, List.mem_cons_of_mem _ hc2, hid, hval⟩

theorem depSuccess_some (m : List (String × WStatus)) (d : String)
    (h : depSuccess m d = true) : alookup m d = some .success := by
  rw [depSuccess] at h
  cases hl : alookup m d with
  | none => rw [hl] at h; simp at h
  | some v =>
    rw [hl] at h
    cases v <;> simp_all

/-- Any result list returned directly by a scheduler tick satisfies the
final facts. -/
theorem wfStep_inl (steps : List WorkflowStep) (outcomes : String → Bool)
    (errMsg : String → String) (sched : Nat → String → Bool)
    (cancel : Nat → Bool) (st : SchedState) (res : List WorkflowRunResult)
    (hnd : (steps.map (·.id)).Nodup) (hInv : WfInv steps st)
    (h : wfStep outcomes errMsg sched cancel st = .inl res) :
    WfFinal steps res := by
  have hinj := List.inj_on_of_nodup_map hnd
  rw [wfStep] at h
  by_cases hE : st.pending.isEmpty && st.running.isEmpty
  · rw [if_pos hE] at h
    rw [Bool.and_eq_true] at hE
    have hp : st.pending = [] := List.isEmpty_iff.mp hE.1
    have hr : st.running = [] := List.isEmpty_iff.mp hE.2
    injection h with hres
    subst hres
    exact ⟨by simpa [hp, hr] using hInv.perm, hInv.res_status,
      hInv.res_succ_deps, hInv.res_err⟩
  · rw [if_neg hE] at h
    by_cases hC : cancel st.tick
    · rw [if_pos hC] at h
      injection h with hres
      subst hres
      refine ⟨?_, ?_, ?_, ?_⟩
      · simp only [List.map_append, map_stepId_cancelled,
          map_stepId_completeResult]
        exact hInv.perm
      · intro r hrm
        rcases List.mem_append.mp hrm with hrm | hrm
        · rcases List.mem_append.mp hrm with hrm | hrm
          · exact hInv.res_status r hrm
          · rcases List.mem_map.mp hrm with ⟨s, hs, rfl⟩
            right; right; rfl
        · rcases List.mem_map.mp hrm with ⟨c, hcmem, rfl⟩
          rcases completeResult_cases outcomes errMsg c with ⟨_, hcr⟩ | ⟨_, hcr⟩
          · rw [hcr]; left; rfl
          · rw [hcr]; right; left; rfl
      · intro r hrm hsucc X hX hXid d hd
        rcases List.mem_append.mp hrm with hrm | hrm
        · rcases List.mem_append.mp hrm with hrm | hrm
          · obtain ⟨rd, hrd, hrdid, hrdst⟩ :=
              hInv.res_succ_deps r hrm hsucc X hX hXid d hd
            exact ⟨rd,
              List.mem_append_left _ (List.mem_append_left _ hrd),
              hrdid, hrdst⟩
          · rcases List.mem_map.mp hrm with ⟨s, hs, rfl⟩
            simp at hsucc
        · rcases List.mem_map.mp hrm with ⟨c, hcmem, rfl⟩
          rcases completeResult_cases outcomes errMsg c with
            ⟨hoc, hcr⟩ | ⟨hoc, hcr⟩
          · rw [completeResult_stepId] at hXid
            have hXc : X = c := hinj hX (hInv.sub_r c hcmem) hXid
            subst hXc
            obtain ⟨rd, hrd, hrdid, hrdst⟩ := hInv.run_deps X hcmem d hd
            exact ⟨rd,
              List.mem_append_left _ (List.mem_append_left _ hrd),
              hrdid, hrdst⟩
          · rw [hcr] at hsucc
            simp at hsucc
      · intro r hrm herr
        rcases List.mem_append.mp hrm with hrm | hrm
        · rcases List.mem_append.mp hrm with hrm | hrm
          · rcases hInv.res_err r hrm herr with hmsg | hdeps
            · exact Or.inl hmsg
            · refine Or.inr ?_
              intro X hX hXid d hd
              obtain ⟨rd, hrd, hrdid, hrdst⟩ := hdeps X hX hXid d hd
              exact ⟨rd,
                List.mem_append_left _ (List.mem_append_left _ hrd),
                hrdid, hrdst⟩
          · rcases List.mem_map.mp hrm with ⟨s, hs, rfl⟩
            simp at herr
        · rcases List.mem_map.mp hrm with ⟨c, hcmem, rfl⟩
          refine Or.inr ?_
          intro X hX hXid d hd
          rw [completeResult_stepId] at hXid
          have hXc : X = c := hinj hX (hInv.sub_r c hcmem) hXid
          subst hXc
          obtain ⟨rd, hrd, hrdid, hrdst⟩ := hInv.run_deps X hcmem d hd
          exact ⟨rd, List.mem_append_left _ (List.mem_append_left _ hrd),
            hrdid, hrdst⟩
    · rw [if_neg hC] at h
      dsimp only at h
      have hperm2 := scanPending_perm st.pending st.status
      have hress := scanPending_res_status st.pending st.status
      set T := scanPending st.pending st.status with hT
      by_cases hDead : ((st.running ++ T.2.1).isEmpty && !T.1.isEmpty)
      · rw [if_pos hDead] at h
        injection h with hres
        subst hres
        rw [Bool.and_eq_true] at hDead
        have hrn : st.running ++ T.2.1 = [] := List.isEmpty_iff.mp hDead.1
        have hrun : st.running = [] := (List.append_eq_nil.mp hrn).1
        have hrdy : T.2.1 = [] := (List.append_eq_nil.mp hrn).2
        have hPperm : (st.pending.map (·.id)).Perm
            (T.1.map (·.id) ++ T.2.2.2.map (·.stepId)) := by
          have := hperm2
          rw [hrdy] at this
          simpa using this
        have hIP : ((st.results.map (·.stepId))
            ++ (st.pending.map (·.id))).Perm (steps.map (·.id)) := by
          have := hInv.perm
          rw [hrun] at this
          simpa using this
        refine ⟨?_, ?_, ?_, ?_⟩
        · simp only [List.map_append, map_stepId_deadlock]
          rw [List.append_assoc]
          refine List.Perm.trans (List.Perm.append_left _ ?_) hIP
          exact List.perm_append_comm.trans hPperm.symm
        · intro r hrm
          rcases List.mem_append.mp hrm with hrm | hrm
          · rcases List.mem_append.mp hrm with hrm | hrm
            · exact hInv.res_status r hrm
            · right; right; exact (hress r hrm).1
          · rcases List.mem_map.mp hrm with ⟨s, hs, rfl⟩
            right; left; rfl
        · intro r hrm hsucc X hX hXid d hd
          rcases List.mem_append.mp hrm with hrm | hrm
          · rcases List.mem_append.mp hrm with hrm | hrm
            · obtain ⟨rd, hrd, hrdid, hrdst⟩ :=
                hInv.res_succ_deps r hrm hsucc X hX hXid d hd
              exact ⟨rd,
                List.mem_append_left _ (List.mem_append_left _ hrd),
                hrdid, hrdst⟩
            · rw [(hress r hrm).1] at hsucc
              simp at hsucc
          · rcases List.mem_map.mp hrm with ⟨s, hs, rfl⟩
            simp at hsucc
        · intro r hrm herr
          rcases List.mem_append.mp hrm with hrm | hrm
          · rcases List.mem_append.mp hrm with hrm | hrm
            · rcases hInv.res_err r hrm herr with hmsg | hdeps
              · exact Or.inl hmsg
              · refine Or.inr ?_
                intro X hX hXid d hd
                obtain ⟨rd, hrd, hrdid, hrdst⟩ := hdeps X hX hXid d hd
                exact ⟨rd,
                  List.mem_append_left _ (List.mem_append_left _ hrd),
                  hrdid, hrdst⟩
            · rw [(hress r hrm).1] at herr
              simp at herr
          · rcases List.mem_map.mp hrm with ⟨s, hs, rfl⟩
            exact Or.inl rfl
      · rw [if_neg hDead] at h
        by_cases hAll : ((st.running ++ T.2.1).isEmpty && T.1.isEmpty)
        · rw [if_pos hAll] at h
          injection h with hres
          subst hres
          rw [Bool.and_eq_true] at hAll
          have hrn : st.running ++ T.2.1 = [] := List.isEmpty_iff.mp hAll.1
          have hrun : st.running = [] := (List.append_eq_nil.mp hrn).1
          have hrdy : T.2.1 = [] := (List.append_eq_nil.mp hrn).2
          have hP1 : T.1 = [] := List.isEmpty_iff.mp hAll.2
          have hPperm : (st.pending.map (·.id)).Perm
              (T.2.2.2.map (·.stepId)) := by
            have := hperm2
            rw [hrdy, hP1] at this
            simpa using this
          have hIP : ((st.results.map (·.stepId))
              ++ (st.pending.map (·.id))).Perm (steps.map (·.id)) := by
            have := hInv.perm
            rw [hrun] at this
            simpa using this
          refine ⟨?_, ?_, ?_, ?_⟩
          · simp only [List.map_append]
            exact (List.Perm.append_left _ hPperm.symm).trans hIP
          · intro r hrm
            rcases List.mem_append.mp hrm with hrm | hrm
            · exact hInv.res_status r hrm
            · right; right; exact (hress r hrm).1
          · intro r hrm hsucc X hX hXid d hd
            rcases List.mem_append.mp hrm with hrm | hrm
            · obtain ⟨rd, hrd, hrdid, hrdst⟩ :=
                hInv.res_succ_deps r hrm hsucc X hX hXid d hd
              exact ⟨rd, List.mem_append_left _ hrd, hrdid, hrdst⟩
            · rw [(hress r hrm).1] at hsucc
              simp at hsucc
          · intro r hrm herr
            rcases List.mem_append.mp hrm with hrm | hrm
            · rcases hInv.res_err r hrm herr with hmsg | hdeps
              · exact Or.inl hmsg
              · refine Or.inr ?_
                intro X hX hXid d hd
                obtain ⟨rd, hrd, hrdid, hrdst⟩ := hdeps X hX hXid d hd
                exact ⟨rd, List.mem_append_left _ hrd, hrdid, hrdst⟩
            · rw [(hress r hrm).1] at herr
              simp at herr
        · rw [if_neg hAll] at h
          simp at h

/-- A scheduler tick that continues preserves the invariant and strictly
decreases `2 * |pending| + |running|`. -/
theorem wfStep_inr (steps : List WorkflowStep) (outcomes : String → Bool)
    (errMsg : String → String) (sched : Nat → String → Bool)
    (cancel : Nat → Bool) (st st2 : SchedState)
    (hnd : (steps.map (·.id)).Nodup) (hInv : WfInv steps st)
    (h : wfStep outcomes errMsg sched cancel st = .inr st2) :
    WfInv steps st2 ∧
    2 * st2.pending.length + st2.running.length
      < 2 * st.pending.length + st.running.length := by
  have hinj := List.inj_on_of_nodup_map hnd
  rw [wfStep] at h
  by_cases hE : st.pending.isEmpty && st.running.isEmpty
  · rw [if_pos hE] at h; simp at h
  · rw [if_neg hE] at h
    by_cases hC : cancel st.tick
    · rw [if_pos hC] at h; simp at h
    · rw [if_neg hC] at h
      dsimp only at h
      have hperm2 := scanPending_perm st.pending st.status
      have hsubp := scanPending_sub_pending st.pending st.status
      have hsubr := scanPending_sub_ready st.pending st.status
      have hress := scanPending_res_status st.pending st.status
      have hmono := scanPending_status_mono st.pending st.status
      have hdom2 := scanPending_dom st.pending st.status
      have hrdeps := scanPending_ready_deps st.pending st.status
      set T := scanPending st.pending st.status with hT
      by_cases hDead : ((st.running ++ T.2.1).isEmpty && !T.1.isEmpty)
      · rw [if_pos hDead] at h; simp at h
      · rw [if_neg hDead] at h
        by_cases hAll : ((st.running ++ T.2.1).isEmpty && T.1.isEmpty)
        · rw [if_pos hAll] at h; simp at h
        · rw [if_neg hAll] at h
          injection h with hst2
          subst hst2
          set running1 := st.running ++ T.2.1 with hR1
          set sel := running1.filter (fun s => sched st.tick s.id) with hSel
          set completed := (if sel.isEmpty then running1 else sel) with hCompl
          set running2 := running1.filter
            (fun s => !(completed.any (fun c => c.id == s.id))) with hR2
          set status2 := T.2.1.foldl
            (fun m s => aset m s.id WStatus.running) T.2.2.1 with hS2
          set status3 := completed.foldl
            (fun m s => aset m s.id (completeStatus outcomes s)) status2
            with hS3
          set results2 := st.results ++ T.2.2.2
            ++ completed.map (completeResult outcomes errMsg) with hRes2
          have hr1ne : running1 ≠ [] := by
            intro hnil
            have hie : running1.isEmpty = true := by rw [hnil]; rfl
            by_cases hp1 : T.1.isEmpty
            · exact hAll (by rw [Bool.and_eq_true]; exact ⟨hie, hp1⟩)
            · have hp1f : T.1.isEmpty = false := Bool.eq_false_iff.mpr hp1
              exact hDead (by
                rw [Bool.and_eq_true]
                exact ⟨hie, by rw [hp1f]; rfl⟩)
          have hndAll : ((st.results.map (·.stepId)) ++ (st.pending.map (·.id))
              ++ (st.running.map (·.id))).Nodup :=
            (List.Perm.nodup_iff hInv.perm).mpr hnd
          have hndRP : ((st.results.map (·.stepId))
              ++ (st.pending.map (·.id))).Nodup :=
            (List.nodup_append.mp hndAll).1
          have hndRun : (st.running.map (·.id)).Nodup :=
            (List.nodup_append.mp hndAll).2.1
          have hdisjRP_Run := (List.nodup_append.mp hndAll).2.2
          have hndP : (st.pending.map (·.id)).Nodup :=
            (List.nodup_append.mp hndRP).2.1
          have hndScan : ((T.1.map (·.id)) ++ (T.2.1.map (·.id))
              ++ (T.2.2.2.map (·.stepId))).Nodup :=
            (List.Perm.nodup_iff hperm2).mp hndP
          have hndRdy : (T.2.1.map (·.id)).Nodup :=
            (List.nodup_append.mp (List.nodup_append.mp hndScan).1).2.1
          have hRdySubP : ∀ i, i ∈ T.2.1.map (·.id) →
              i ∈ st.pending.map (·.id) := by
            intro i hi
            have hmem : i ∈ (T.1.map (·.id) ++ T.2.1.map (·.id)
                ++ T.2.2.2.map (·.stepId)) :=
              List.mem_append_left _ (List.mem_append_right _ hi)
            exact (hperm2.mem_iff).mpr hmem
          have hndR1 : (running1.map (·.id)).Nodup := by
            rw [hR1, List.map_append]
            refine List.Nodup.append hndRun hndRdy ?_
            intro a haRun haRdy
            exact hdisjRP_Run
              (List.mem_append_right _ (hRdySubP a haRdy)) haRun
          obtain ⟨hpartPerm, hcomplNe⟩ := completed_partition running1 completed
            (fun s => sched st.tick s.id) (by rw [hCompl, hSel]) hndR1
          rw [← hR2] at hpartPerm
          have hlenPart : completed.length + running2.length
              = running1.length := by
            have := hpartPerm.length_eq
            simpa using this
          have hlenScan := hperm2.length_eq
          simp only [List.length_map, List.length_append] at hlenScan
          have hlenR1 : running1.length
              = st.running.length + T.2.1.length := by
            rw [hR1, List.length_append]
          have hcomplPos : 0 < completed.length :=
            List.length_pos.mpr (hcomplNe hr1ne)
          have hsubR1 : ∀ c ∈ running1, c ∈ steps := by
            intro c hc
            rw [hR1] at hc
            rcases List.mem_append.mp hc with hc | hc
            · exact hInv.sub_r c hc
            · exact hInv.sub_p c (hsubr c hc)
          have hdepsR1 : ∀ c ∈ running1, ∀ d ∈ c.dependsOn,
              ∃ rd ∈ st.results, rd.stepId = d ∧ rd.status = .success := by
            intro c hc d hd
            rw [hR1] at hc
            rcases List.mem_append.mp hc with hc | hc
            · exact hInv.run_deps c hc d hd
            · exact hInv.succ_res d (depSuccess_some _ _ (hrdeps c hc d hd))
          have hliftRes : ∀ rd ∈ st.results, rd ∈ results2 := by
            intro rd hrd
            rw [hRes2]
            exact List.mem_append_left _ (List.mem_append_left _ hrd)
          have hsubCompl : ∀ c ∈ completed, c ∈ running1 := by
            intro c hc
            rw [hCompl] at hc
            by_cases hs : sel.isEmpty
            · rwa [if_pos hs] at hc
            · rw [if_neg hs] at hc
              rw [hSel] at hc
              exact (List.mem_filter.mp hc).1
          have hstat2succ : ∀ i, alookup status2 i = some .success →
              ∃ r ∈ st.results, r.stepId = i ∧ r.status = .success := by
            intro i hi
            have hfold2 := alookup_foldl_aset (fun _ => WStatus.running)
              T.2.1 T.2.2.1 i
            rw [← hS2] at hfold2
            rcases hfold2 with hcase | ⟨c, hc, hcid, hval⟩
            · rw [hcase] at hi
              rcases hmono i with hm | hm
              · rw [hm] at hi
                exact hInv.succ_res i hi
              · rw [hm] at hi
                simp at hi
            · rw [hval] at hi
              simp at hi
          constructor
          · refine ⟨?_, ?_, ?_, ?_, ?_, ?_, ?_, ?_, ?_⟩
            · -- sub_p
              intro s hs
              exact hInv.sub_p s (hsubp s hs)
            · -- sub_r
              intro s hs
              dsimp only at hs
              rw [hR2] at hs
              exact hsubR1 s (List.mem_filter.mp hs).1
            · -- perm
              dsimp only
              rw [← Multiset.coe_eq_coe, hRes2]
              have hS := Multiset.coe_eq_coe.mpr hInv.perm
              have hP := Multiset.coe_eq_coe.mpr hperm2
              rw [hR1] at hpartPerm
              have hC := Multiset.coe_eq_coe.mpr hpartPerm
              simp only [List.map_append, map_stepId_completeResult,
                ← Multiset.coe_add] at hS hP hC ⊢
              refine Multiset.ext.mpr fun a => ?_
              have h1 := congrArg (Multiset.count a) hS
              have h2 := congrArg (Multiset.count a) hP
              have h3 := congrArg (Multiset.count a) hC
              simp only [Multiset.count_add] at h1 h2 h3 ⊢
              omega
            · -- dom
              intro i hi
              dsimp only at hi
              have hfold3 := alookup_foldl_aset (completeStatus outcomes)
                completed status2 i
              rw [← hS3] at hfold3
              rcases hfold3 with hcase | ⟨c, hc, hcid, hval⟩
              · rw [hcase] at hi
                have hfold2 := alookup_foldl_aset (fun _ => WStatus.running)
                  T.2.1 T.2.2.1 i
                rw [← hS2] at hfold2
                rcases hfold2 with hcase2 | ⟨c, hc, hcid, hval⟩
                · rw [hcase2] at hi
                  rcases hdom2 i hi with hdm | hdm
                  · exact hInv.dom i hdm
                  · rcases List.mem_map.mp hdm with ⟨s, hs, rfl⟩
                    exact List.mem_map.mpr ⟨s, hInv.sub_p s hs, rfl⟩
                · exact List.mem_map.mpr
                    ⟨c, hInv.sub_p c (hsubr c hc), hcid⟩
              · exact List.mem_map.mpr
                  ⟨c, hsubR1 c (hsubCompl c hc), hcid⟩
            · -- succ_res
              intro i hi
              dsimp only at hi ⊢
              have hfold3 := alookup_foldl_aset (completeStatus outcomes)
                completed status2 i
              rw [← hS3] at hfold3
              rcases hfold3 with hcase | ⟨c, hc, hcid, hval⟩
              · rw [hcase] at hi
                obtain ⟨r, hr, hrid, hrst⟩ := hstat2succ i hi
                exact ⟨r, hliftRes r hr, hrid, hrst⟩
              · rw [hval] at hi
                rw [Option.some.injEq] at hi
                rw [completeStatus] at hi
                by_cases ho : outcomes c.id
                · refine ⟨completeResult outcomes errMsg c, ?_, ?_, ?_⟩
                  · rw [hRes2]
                    exact List.mem_append_right _
                      (List.mem_map.mpr ⟨c, hc, rfl⟩)
                  · rw [completeResult_stepId]
                    exact hcid
                  · rcases completeResult_cases outcomes errMsg c with
                      ⟨_, hcr⟩ | ⟨ho2, _⟩
                    · rw [hcr]
                    · rw [ho2] at ho
                      simp at ho
                · rw [if_neg ho] at hi
                  simp at hi
            · -- run_deps
              intro c hc d hd
              dsimp only at hc ⊢
              rw [hR2] at hc
              obtain ⟨rd, hrd, hrdid, hrdst⟩ :=
                hdepsR1 c (List.mem_filter.mp hc).1 d hd
              exact ⟨rd, hliftRes rd hrd, hrdid, hrdst⟩
            · -- res_succ_deps
              intro r hr hsucc X hX hXid d hd
              dsimp only at hr ⊢
              rw [hRes2] at hr
              rcases List.mem_append.mp hr with hr | hr
              · rcases List.mem_append.mp hr with hr | hr
                · obtain ⟨rd, hrd, hrdid, hrdst⟩ :=
                    hInv.res_succ_deps r hr hsucc X hX hXid d hd
                  exact ⟨rd, hliftRes rd hrd, hrdid, hrdst⟩
                · rw [(hress r hr).1] at hsucc
                  simp at hsucc
              · rcases List.mem_map.mp hr with ⟨c, hc, rfl⟩
                rcases completeResult_cases outcomes errMsg c with
                  ⟨_, hcr⟩ | ⟨_, hcr⟩
                · rw [completeResult_stepId] at hXid
                  have hXc : X = c :=
                    hinj hX (hsubR1 c (hsubCompl c hc)) hXid
                  subst hXc
                  obtain ⟨rd, hrd, hrdid, hrdst⟩ :=
                    hdepsR1 X (hsubCompl X hc) d hd
                  exact ⟨rd, hliftRes rd hrd, hrdid, hrdst⟩
                · rw [hcr] at hsucc
                  simp at hsucc
            · -- res_err
              intro r hr herr
              dsimp only at hr ⊢
              rw [hRes2] at hr
              rcases List.mem_append.mp hr with hr | hr
              · rcases List.mem_append.mp hr with hr | hr
                · rcases hInv.res_err r hr herr with hmsg | hdeps
                  · exact Or.inl hmsg
                  · refine Or.inr ?_
                    intro X hX hXid d hd
                    obtain ⟨rd, hrd, hrdid, hrdst⟩ := hdeps X hX hXid d hd
                    exact ⟨rd, hliftRes rd hrd, hrdid, hrdst⟩
                · rw [(hress r hr).1] at herr
                  simp at herr
              · rcases List.mem_map.mp hr with ⟨c, hc, rfl⟩
                refine Or.inr ?_
                intro X hX hXid d hd
                rw [completeResult_stepId] at hXid
                have hXc : X = c :=
                  hinj hX (hsubR1 c (hsubCompl c hc)) hXid
                subst hXc
                obtain ⟨rd, hrd, hrdid, hrdst⟩ :=
                  hdepsR1 X (hsubCompl X hc) d hd
                exact ⟨rd, hliftRes rd hrd, hrdid, hrdst⟩
            · -- res_status
              intro r hr
              dsimp only at hr
              rw [hRes2] at hr
              rcases List.mem_append.mp hr with hr | hr
              · rcases List.mem_append.mp hr with hr | hr
                · exact hInv.res_status r hr
                · right; right; exact (hress r hr).1
              · rcases List.mem_map.mp hr with ⟨c, hc, rfl⟩
                rcases completeResult_cases outcomes errMsg c with
                  ⟨_, hcr⟩ | ⟨_, hcr⟩
                · rw [hcr]; left; rfl
                · rw [hcr]; right; left; rfl
          · -- measure decreases
            dsimp only
            omega

/-- The measure decrease needs no assumption on identifiers: some running
step always settles, and the scan never grows the pending set. -/
theorem wfStep_inr_measure (outcomes : String → Bool)
    (errMsg : String → String) (sched : Nat → String → Bool)
    (cancel : Nat → Bool) (st st2 : SchedState)
    (h : wfStep outcomes errMsg sched cancel st = .inr st2) :
    2 * st2.pending.length + st2.running.length
      < 2 * st.pending.length + st.running.length := by
  rw [wfStep] at h
  by_cases hE : st.pending.isEmpty && st.running.isEmpty
  · rw [if_pos hE] at h; simp at h
  · rw [if_neg hE] at h
    by_cases hC : cancel st.tick
    · rw [if_pos hC] at h; simp at h
    · rw [if_neg hC] at h
      dsimp only at h
      have hperm2 := scanPending_perm st.pending st.status
      set T := scanPending st.pending st.status with hT
      by_cases hDead : ((st.running ++ T.2.1).isEmpty && !T.1.isEmpty)
      · rw [if_pos hDead] at h; simp at h
      · rw [if_neg hDead] at h
        by_cases hAll : ((st.running ++ T.2.1).isEmpty && T.1.isEmpty)
        · rw [if_pos hAll] at h; simp at h
        · rw [if_neg hAll] at h
          injection h with hst2
          subst hst2
          dsimp only
          set running1 := st.running ++ T.2.1 with hR1
          set sel := running1.filter (fun s => sched st.tick s.id) with hSel
          set completed := (if sel.isEmpty then running1 else sel) with hCompl
          have hr1ne : running1 ≠ [] := by
            intro hnil
            have hie : running1.isEmpty = true := by rw [hnil]; rfl
            by_cases hp1 : T.1.isEmpty
            · exact hAll (by rw [Bool.and_eq_true]; exact ⟨hie, hp1⟩)
            · have hp1f : T.1.isEmpty = false := Bool.eq_false_iff.mpr hp1
              exact hDead (by
                rw [Bool.and_eq_true]
                exact ⟨hie, by rw [hp1f]; rfl⟩)
          have hcomplNe : completed ≠ [] := by
            rw [hCompl]
            by_cases hs : sel.isEmpty
            · rw [if_pos hs]; exact hr1ne
            · rw [if_neg hs]
              intro hnil
              exact hs (by rw [hnil]; rfl)
          obtain ⟨c0, hc0⟩ := List.exists_mem_of_ne_nil completed hcomplNe
          have hc0r1 : c0 ∈ running1 := by
            have hc := hc0
            rw [hCompl] at hc
            by_cases hs : sel.isEmpty
            · rwa [if_pos hs] at hc
            · rw [if_neg hs] at hc
              rw [hSel] at hc
              exact (List.mem_filter.mp hc).1
          have hrun2lt : (running1.filter (fun s =>
              !(completed.any (fun c => c.id == s.id)))).length
              < running1.length := by
            have hle := List.length_filter_le (fun s =>
              !(completed.any (fun c => c.id == s.id))) running1
            rcases Nat.eq_or_lt_of_le hle with heq | hlt2
            · exfalso
              have hall := (List.filter_length_eq_length).mp heq
              have hthis := hall c0 hc0r1
              have hany : completed.any (fun c => c.id == c0.id) = true := by
                rw [List.any_eq_true]
                exact ⟨c0, hc0, by simp⟩
              rw [hany] at hthis
              simp at hthis
            · exact hlt2
          have hlenScan := hperm2.length_eq
          simp only [List.length_map, List.length_append] at hlenScan
          have hlenR1 : running1.length
              = st.running.length + T.2.1.length := by
            rw [hR1, List.length_append]
          omega

/-- With enough fuel the scheduler loop always returns. -/
theorem wfLoop_isSome (outcomes : String → Bool) (errMsg : String → String)
    (sched : Nat → String → Bool) (cancel : Nat → Bool) :
    ∀ fuel st, 2 * st.pending.length + st.running.length < fuel →
      (wfLoop outcomes errMsg sched cancel fuel st).isSome := by
  intro fuel
  induction fuel with
  | zero => intro st hlt; omega
  | succ fuel ih =>
    intro st hlt
    rw [wfLoop]
    cases hstep : wfStep outcomes errMsg sched cancel st with
    | inl res => rfl
    | inr st2 =>
      refine ih st2 ?_
      have := wfStep_inr_measure outcomes errMsg sched cancel st st2 hstep
      omega

/-- With enough fuel, unique identifiers and a valid invariant, the loop
returns a result list satisfying the final facts. -/
theorem wfLoop_final (steps : List WorkflowStep) (outcomes : String → Bool)
    (errMsg : String → String) (sched : Nat → String → Bool)
    (cancel : Nat → Bool) (hnd : (steps.map (·.id)).Nodup) :
    ∀ fuel st, WfInv steps st →
      2 * st.pending.length + st.running.length < fuel →
      ∃ res, wfLoop outcomes errMsg sched cancel fuel st = some res ∧
        WfFinal steps res := by
  intro fuel
  induction fuel with
  | zero => intro st _ hlt; omega
  | succ fuel ih =>
    intro st hInv hlt
    rw [wfLoop]
    cases hstep : wfStep outcomes errMsg sched cancel st with
    | inl res =>
      exact ⟨res, rfl,
        wfStep_inl steps outcomes errMsg sched cancel st res hnd hInv hstep⟩
    | inr st2 =>
      obtain ⟨hInv2, hdec⟩ :=
        wfStep_inr steps outcomes errMsg sched cancel st st2 hnd hInv hstep
      exact ih st2 hInv2 (by omega)

/-- The up-front pass establishes the invariant. -/
theorem initState_inv (steps : List WorkflowStep) :
    WfInv steps (initState steps) := by
  refine ⟨?_, ?_, ?_, ?_, ?_, ?_, ?_, ?_, ?_⟩
  · intro s hs
    exact (List.mem_filter.mp hs).1
  · intro s hs
    simp [initState] at hs
  · dsimp only [initState]
    simp only [List.map_map, List.map_nil, List.append_nil]
    have hcomp : ((steps.filter (fun s => !s.enabled)).map
        ((fun r : WorkflowRunResult => r.stepId) ∘
          (fun s : WorkflowStep => ⟨s.id, s.label, .skipped, none⟩)))
        = (steps.filter (fun s => !s.enabled)).map (·.id) := rfl
    rw [hcomp, ← List.map_append]
    refine List.Perm.map _ ?_
    exact List.perm_append_comm.trans
      (List.filter_append_perm (fun s => s.enabled) steps)
  · intro i hi
    dsimp only [initState, initStatus] at hi
    rcases alookup_foldl_aset
        (fun s => if s.enabled then .pending else .skipped) steps [] i with
      hcase | ⟨c, hc, hcid, _⟩
    · rw [hcase] at hi
      simp [alookup] at hi
    · exact List.mem_map.mpr ⟨c, hc, hcid⟩
  · intro i hi
    dsimp only [initState, initStatus] at hi
    rcases alookup_foldl_aset
        (fun s => if s.enabled then .pending else .skipped) steps [] i with
      hcase | ⟨c, hc, hcid, hval⟩
    · rw [hcase] at hi
      simp [alookup] at hi
    · rw [hval] at hi
      rw [Option.some.injEq] at hi
      by_cases hce : c.enabled <;> simp [hce] at hi
  · intro c hc
    simp [initState] at hc
  · intro r hr hsucc X hX hXid d hd
    dsimp only [initState] at hr
    rcases List.mem_map.mp hr with ⟨s, hs, rfl⟩
    simp at hsucc
  · intro r hr herr
    dsimp only [initState] at hr
    rcases List.mem_map.mp hr with ⟨s, hs, rfl⟩
    simp at herr
  · intro r hr
    dsimp only [initState] at hr
    rcases List.mem_map.mp hr with ⟨s, hs, rfl⟩
    right; right; rfl

/-- The fuel `2 * steps.length + 1` always suffices. -/
theorem runWorkflowO_isSome (steps : List WorkflowStep)
    (outcomes : String → Bool) (errMsg : String → String)
    (sched : Nat → String → Bool) (cancel : Nat → Bool) :
    (runWorkflowO steps outcomes errMsg sched cancel).isSome := by
  rw [runWorkflowO]
  refine wfLoop_isSome outcomes errMsg sched cancel _ _ ?_
  dsimp only [initState]
  have := List.length_filter_le (fun s => s.enabled) steps
  simp only [List.length_nil]
  omega

/-- The final facts hold of every `runWorkflow` result. -/
theorem runWorkflow_final (steps : List WorkflowStep)
    (outcomes : String → Bool) (errMsg : String → String)
    (sched : Nat → String → Bool) (cancel : Nat → Bool)
    (hnd : (steps.map (·.id)).Nodup) :
    WfFinal steps (runWorkflow steps outcomes errMsg sched cancel) := by
  obtain ⟨res, hres, hfin⟩ :=
    wfLoop_final steps outcomes errMsg sched cancel hnd
      (2 * steps.length + 1) (initState steps) (initState_inv steps)
      (by
        dsimp only [initState]
        have := List.length_filter_le (fun s => s.enabled) steps
        simp only [List.length_nil]
        omega)
  rw [runWorkflow, runWorkflowO, hres]
  exact hfin

/-- Claim C1: with unique step identifiers, `runWorkflow` returns exactly
one result per input step — result identifiers are a permutation of the
input identifiers — and every result's status is `success`, `error` or
`skipped` (never `pending`, `running` or `warning`). -/
theorem runWorkflow_one_result_per_step (steps : List WorkflowStep)
    (outcomes : String → Bool) (errMsg : String → String)
    (sched : Nat → String → Bool) (cancel : Nat → Bool)
    (hnd : (steps.map (·.id)).Nodup) :
    (((runWorkflow steps outcomes errMsg sched cancel).map (·.stepId)).Perm
      (steps.map (·.id))) ∧
    (∀ r ∈ runWorkflow steps outcomes errMsg sched cancel,
      r.status = .success ∨ r.status = .error ∨ r.status = .skipped) :=
  let hF := runWorkflow_final steps outcomes errMsg sched cancel hnd
  ⟨hF.perm, hF.res_status⟩

/-- Witness for C1 on a three-step graph with one disabled step. -/
theorem runWorkflow_one_result_per_step_witness :
    (((runWorkflow [⟨"s1", "S1", true, []⟩, ⟨"s2", "S2", true, ["s1"]⟩,
        ⟨"s3", "S3", false, []⟩] (fun _ => true) (fun _ => "e")
        (fun _ _ => true) (fun _ => false)).map (·.stepId)).Perm
      (([⟨"s1", "S1", true, []⟩, ⟨"s2", "S2", true, ["s1"]⟩,
        ⟨"s3", "S3", false, []⟩] : List WorkflowStep).map (·.id))) ∧
    (∀ r ∈ runWorkflow [⟨"s1", "S1", true, []⟩, ⟨"s2", "S2", true, ["s1"]⟩,
        ⟨"s3", "S3", false, []⟩] (fun _ => true) (fun _ => "e")
        (fun _ _ => true) (fun _ => false),
      r.status = .success ∨ r.status = .error ∨ r.status = .skipped) :=
  runWorkflow_one_result_per_step
    [⟨"s1", "S1", true, []⟩, ⟨"s2", "S2", true, ["s1"]⟩,
      ⟨"s3", "S3", false, []⟩]
    (fun _ => true) (fun _ => "e") (fun _ _ => true) (fun _ => false)
    (by decide)

/-- Claim C2 counterexample: an enabled step whose only dependency names no
step ends `error` with the deadlock reason, not `skipped`. -/
theorem unknown_dep_skip_counterexample :
    runWorkflow [⟨"x", "X", true, ["ghost"]⟩] (fun _ => true) (fun _ => "e")
      (fun _ _ => true) (fun _ => false)
      = [⟨"x", "X", .error, some "Deadlock: dependencies never met"⟩] ∧
    WStatus.error ≠ WStatus.skipped :=
  ⟨rfl, by decide⟩

/-- Claim C2 (amended): an enabled step with a dependency on an identifier
that names no input step is never launched and never succeeds — its result
is `skipped` (another dependency failed, or the run was cancelled), or
`error` carrying exactly the Deadlock reason (stranded in the deadlock
flush; a launched step's failure would carry its body's message instead,
but such a step is never launched since its unknown dependency can never
be recorded successful). -/
theorem unknown_dep_never_succeeds (steps : List WorkflowStep)
    (outcomes : String → Bool) (errMsg : String → String)
    (sched : Nat → String → Bool) (cancel : Nat → Bool)
    (hnd : (steps.map (·.id)).Nodup) (s : WorkflowStep) (hs : s ∈ steps)
    (hen : s.enabled = true) (d : String) (hd : d ∈ s.dependsOn)
    (hunknown : d ∉ steps.map (·.id)) :
    ∀ r ∈ runWorkflow steps outcomes errMsg sched cancel,
      r.stepId = s.id →
      r.status = .skipped ∨
        (r.status = .error ∧
          r.error = some "Deadlock: dependencies never met") := by
  intro r hr hrid
  have hF := runWorkflow_final steps outcomes errMsg sched cancel hnd
  have hnodep : ∀ (P : Prop),
      (∀ X ∈ steps, X.id = r.stepId → ∀ e ∈ X.dependsOn,
        ∃ rd ∈ runWorkflow steps outcomes errMsg sched cancel,
          rd.stepId = e ∧ rd.status = .success) → P := by
    intro P hdeps
    exfalso
    obtain ⟨rd, hrd, hrdid, _⟩ := hdeps s hs hrid.symm d hd
    exact hunknown ((hF.perm.mem_iff).mp (List.mem_map.mpr ⟨rd, hrd, hrdid⟩))
  rcases hF.res_status r hr with hsucc | herr | hskip
  · exact hnodep _ (fun X hX hXid => hF.succ_deps r hr hsucc X hX hXid)
  · rcases hF.err_src r hr herr with hmsg | hdeps
    · exact Or.inr ⟨herr, hmsg⟩
    · exact hnodep _ hdeps
  · exact Or.inl hskip

/-- Witness for C2 (amended) at the single ghost-dependency graph, applied
to its one recorded result. -/
theorem unknown_dep_never_succeeds_witness :
    (⟨"x", "X", .error, some "Deadlock: dependencies never met"⟩ :
      WorkflowRunResult).status = .skipped ∨
    ((⟨"x", "X", .error, some "Deadlock: dependencies never met"⟩ :
      WorkflowRunResult).status = .error ∧
      (⟨"x", "X", .error, some "Deadlock: dependencies never met"⟩ :
        WorkflowRunResult).error
        = some "Deadlock: dependencies never met") :=
  unknown_dep_never_succeeds [⟨"x", "X", true, ["ghost"]⟩] (fun _ => true)
    (fun _ => "e") (fun _ _ => true) (fun _ => false) (by decide)
    ⟨"x", "X", true, ["ghost"]⟩ (by decide) rfl "ghost" (by decide)
    (by decide)
    ⟨"x", "X", .error, some "Deadlock: dependencies never met"⟩
    (by decide) rfl

/-- If `A`'s terminal result is `error` or `skipped`, nothing that depends
on `A` through any chain can end `success`. -/
theorem chain_blocks_success (steps : List WorkflowStep)
    (outcomes : String → Bool) (errMsg : String → String)
    (sched : Nat → String → Bool) (cancel : Nat → Bool)
    (hnd : (steps.map (·.id)).Nodup) (B A : WorkflowStep)
    (hchain : DepChain steps B A) :
    ∀ rA ∈ runWorkflow steps outcomes errMsg sched cancel,
      rA.stepId = A.id →
      (rA.status = .error ∨ rA.status = .skipped) →
      ∀ rB ∈ runWorkflow steps outcomes errMsg sched cancel,
        rB.stepId = B.id → rB.status ≠ .success := by
  have hF := runWorkflow_final steps outcomes errMsg sched cancel hnd
  have hndres : ((runWorkflow steps outcomes errMsg sched cancel).map
      (·.stepId)).Nodup := (List.Perm.nodup_iff hF.perm).mpr hnd
  have hinjres := List.inj_on_of_nodup_map hndres
  induction hchain with
  | base B A hB hA hdep =>
    intro rA hrA hrAid hAfail rB hrB hrBid hsucc
    obtain ⟨rd, hrd, hrdid, hrdst⟩ :=
      hF.succ_deps rB hrB hsucc B hB hrBid.symm A.id hdep
    have heq : rd = rA := hinjres hrd hrA (by rw [hrdid, hrAid])
    rw [heq] at hrdst
    rcases hAfail with hAf | hAf <;> rw [hAf] at hrdst <;> simp at hrdst
  | step B C A hB hC hdep hchain2 ih =>
    intro rA hrA hrAid hAfail rB hrB hrBid hsucc
    obtain ⟨rd, hrd, hrdid, hrdst⟩ :=
      hF.succ_deps rB hrB hsucc B hB hrBid.symm C.id hdep
    exact ih rA hrA hrAid hAfail rd hrd hrdid hrdst

/-- Claim C3 counterexample: in the two-step cycle both enabled steps end
`error` (Deadlock); `b` depends on `a`, `a` ends `error`, yet `b` ends
`error`, not `skipped`. -/
theorem dep_propagation_counterexample :
    runWorkflow [⟨"a", "A", true, ["b"]⟩, ⟨"b", "B", true, ["a"]⟩]
      (fun _ => true) (fun _ => "e") (fun _ _ => true) (fun _ => false)
      = [⟨"a", "A", .error, some "Deadlock: dependencies never met"⟩,
         ⟨"b", "B", .error, some "Deadlock: dependencies never met"⟩] ∧
    "a" ∈ (⟨"b", "B", true, ["a"]⟩ : WorkflowStep).dependsOn ∧
    WStatus.error ≠ WStatus.skipped :=
  ⟨rfl, by decide, by decide⟩

/-- Claim C3 (amended): with unique identifiers, if enabled step `B`
depends on enabled step `A` directly or transitively and `A`'s terminal
status is `error` or `skipped`, then `B` ends `skipped`, or — when `B` is
stranded in a dependency deadlock — `error` with the Deadlock reason; `B`
never ends `success`. -/
theorem dep_failure_propagates_or_deadlock (steps : List WorkflowStep)
    (outcomes : String → Bool) (errMsg : String → String)
    (sched : Nat → String → Bool) (cancel : Nat → Bool)
    (hnd : (steps.map (·.id)).Nodup) (A B : WorkflowStep)
    (hAe : A.enabled = true) (hBe : B.enabled = true)
    (hchain : DepChain steps B A)
    (rA : WorkflowRunResult)
    (hrA : rA ∈ runWorkflow steps outcomes errMsg sched cancel)
    (hrAid : rA.stepId = A.id)
    (hAfail : rA.status = .error ∨ rA.status = .skipped)
    (rB : WorkflowRunResult)
    (hrB : rB ∈ runWorkflow steps outcomes errMsg sched cancel)
    (hrBid : rB.stepId = B.id) :
    rB.status = .skipped ∨
      (rB.status = .error ∧
        rB.error = some "Deadlock: dependencies never met") := by
  have hF := runWorkflow_final steps outcomes errMsg sched cancel hnd
  have hndres : ((runWorkflow steps outcomes errMsg sched cancel).map
      (·.stepId)).Nodup := (List.Perm.nodup_iff hF.perm).mpr hnd
  have hinjres := List.inj_on_of_nodup_map hndres
  have hnosucc := chain_blocks_success steps outcomes errMsg sched cancel
    hnd B A hchain rA hrA hrAid hAfail rB hrB hrBid
  rcases hF.res_status rB hrB with h | h | h
  · exact absurd h hnosucc
  · rcases hF.err_src rB hrB h with hmsg | hdeps
    · exact Or.inr ⟨h, hmsg⟩
    · exfalso
      cases hchain with
      | base B A hB hA hdep =>
        obtain ⟨rd, hrd, hrdid, hrdst⟩ := hdeps B hB hrBid.symm A.id hdep
        have heq : rd = rA := hinjres hrd hrA (by rw [hrdid, hrAid])
        rw [heq] at hrdst
        rcases hAfail with hAf | hAf <;> rw [hAf] at hrdst <;> simp at hrdst
      | step B C A hB hC hdep hchain2 =>
        obtain ⟨rd, hrd, hrdid, hrdst⟩ := hdeps B hB hrBid.symm C.id hdep
        exact chain_blocks_success steps outcomes errMsg sched cancel hnd
          C A hchain2 rA hrA hrAid hAfail rd hrd hrdid hrdst
  · exact Or.inl h

/-- Witness for C3 (amended): `a` fails at runtime and dependent `b` is
skipped. -/
theorem dep_failure_propagates_or_deadlock_witness :
    (⟨"b", "B", .skipped, some "Dependency failed"⟩ :
        WorkflowRunResult).status = .skipped ∨
      ((⟨"b", "B", .skipped, some "Dependency failed"⟩ :
        WorkflowRunResult).status = .error ∧
        (⟨"b", "B", .skipped, some "Dependency failed"⟩ :
          WorkflowRunResult).error
          = some "Deadlock: dependencies never met") :=
  dep_failure_propagates_or_deadlock
    [⟨"a", "A", true, []⟩, ⟨"b", "B", true, ["a"]⟩]
    (fun _ => false) (fun _ => "boom") (fun _ _ => true) (fun _ => false)
    (by decide) ⟨"a", "A", true, []⟩ ⟨"b", "B", true, ["a"]⟩ rfl rfl
    (DepChain.base _ _ (by decide) (by decide) (by decide))
    ⟨"a", "A", .error, some "boom"⟩ (by decide) rfl (Or.inl rfl)
    ⟨"b", "B", .skipped, some "Dependency failed"⟩ (by decide) rfl

/-- Claim C4: the scheduler terminates on every finite step list — the
fuel `2 * |steps| + 1` always returns a result — and on the two-step
enabled cycle both steps end `error` with the Deadlock reason. -/
theorem runWorkflow_terminates_and_cycle_deadlocks :
    (∀ (steps : List WorkflowStep) (outcomes : String → Bool)
        (errMsg : String → String) (sched : Nat → String → Bool)
        (cancel : Nat → Bool),
      (runWorkflowO steps outcomes errMsg sched cancel).isSome) ∧
    runWorkflow [⟨"a", "A", true, ["b"]⟩, ⟨"b", "B", true, ["a"]⟩]
      (fun _ => false) (fun _ => "boom") (fun t i => t == 0 && i == "a")
      (fun _ => false)
      = [⟨"a", "A", .error, some "Deadlock: dependencies never met"⟩,
         ⟨"b", "B", .error, some "Deadlock: dependencies never met"⟩] :=
  ⟨fun steps outcomes errMsg sched cancel =>
    runWorkflowO_isSome steps outcomes errMsg sched cancel, rfl⟩

end Spec2Proof
